import Mathlib



namespace SatKit

/-! ## Reducer embedding (`reductionSAT_3SAT.cpp`)

`struct Clause { vector<int> literals; }` — a clause is a list of signed
DIMACS literals.  `struct CNFFormula { int numVars; int numClauses;
vector<Clause> clauses; }`. -/

namespace Red

abbrev RClause := List Int

structure CNFFormula where
  numVars : Int
  numClauses : Int
  clauses : List RClause
deriving DecidableEq, Repr


/-- Integer fields of `struct ReductionStats` (the `double` growth ratios
and the elapsed-time field, which are derived display data, and the
size-distribution map are not modelled). -/
structure ReductionStats where
  originalVars : Int
  originalClauses : Int
  reducedVars : Int
  reducedClauses : Int
  auxVarsAdded : Int
  totalLiteralsOriginal : Int
  totalLiteralsReduced : Int
deriving DecidableEq, Repr


/-- `SATto3SATReducer::reduceSize1`: `(x)` becomes four 3-literal clauses
using two fresh variables `y = nextAuxVar++`, `z = nextAuxVar++`.
Returns the emitted clauses and the updated `nextAuxVar`. -/
def reduceSize1 (next lit : Int) : List RClause × Int :=
  let y := next
  let z := next + 1
  ([[lit, y, z], [lit, y, -z], [lit, -y, z], [lit, -y, -z]], next + 2)


/-- `SATto3SATReducer::reduceSize2`: `(x₁ ∨ x₂)` becomes two 3-literal
clauses using one fresh variable `y = nextAuxVar++`. -/
def reduceSize2 (next lit1 lit2 : Int) : List RClause × Int :=
  let y := next
  ([[lit1, lit2, y], [lit1, lit2, -y]], next + 1)


/-- `SATto3SATReducer::reduceSizeK`: a clause of size `k ≥ 4` becomes the
chain `(x₁∨x₂∨y₁)`, `(¬yᵢ∨xᵢ₊₂∨yᵢ₊₁)` for `i = 0..k-5`, `(¬y_{k-3}∨x_{k-1}∨xₖ)`,
with `k-3` fresh variables `auxVars[i] = nextAuxVar++`.  Indexing mirrors
the C++ loops; `getD _ 0` stands for `vector::operator[]` (all accesses are
in range when `k ≥ 4`). -/
def reduceSizeK (next : Int) (lits : List Int) : List RClause × Int :=
  let k := lits.length
  if k < 4 then ([], next) else
  let aux : List Int := (List.range (k - 3)).map (fun i : Nat => next + (i : Int))
  (([lits.getD 0 0, lits.getD 1 0, aux.getD 0 0] ::
    (List.range (k - 4)).map
      (fun i : Nat => [-(aux.getD i 0), lits.getD (i + 2) 0, aux.getD (i + 1) 0])) ++
   [[-(aux.getD (k - 4) 0), lits.getD (k - 2) 0, lits.getD (k - 1) 0]],
   next + (k - 3))


/-- The per-clause dispatch in the body of `SATto3SATReducer::reduce`:
size 0 clauses are skipped (`continue`), size 1/2 clauses go to the
helpers, size 3 clauses pass through unchanged, size ≥ 4 clauses are
chained. -/
def reduceClause (next : Int) (c : RClause) : List RClause × Int :=
  if c.length == 0 then ([], next)
  else if c.length == 1 then reduceSize1 next (c.getD 0 0)
  else if c.length == 2 then reduceSize2 next (c.getD 0 0) (c.getD 1 0)
  else if c.length == 3 then ([c], next)
  else reduceSizeK next c


/-- The clause loop of `SATto3SATReducer::reduce`: each clause's emitted
clauses are appended to the output in order, threading `nextAuxVar`. -/
def reduceClauses (next : Int) : List RClause → List RClause × Int
  | [] => ([], next)
  | c :: rest =>
    let p := reduceClause next c
    let q := reduceClauses p.2 rest
    (p.1 ++ q.1, q.2)


/-- `SATto3SATReducer::reduce`: `nextAuxVar` starts at `numVars + 1`;
the reduced formula's `numVars` is `nextAuxVar - 1` afterwards, and the
statistics record is filled in. -/
def reduce (original : CNFFormula) : CNFFormula × ReductionStats :=
  let p := reduceClauses (original.numVars + 1) original.clauses
  let reduced : CNFFormula :=
    { numVars := p.2 - 1, numClauses := (p.1.length : Int), clauses := p.1 }
  let stats : ReductionStats :=
    { originalVars := original.numVars
      originalClauses := (original.clauses.length : Int)
      reducedVars := reduced.numVars
      reducedClauses := reduced.numClauses
      auxVarsAdded := reduced.numVars - original.numVars
      totalLiteralsOriginal :=
        original.clauses.foldl (fun acc c => acc + (c.length : Int)) 0
      totalLiteralsReduced :=
        p.1.foldl (fun acc c => acc + (c.length : Int)) 0 }
  (reduced, stats)


/-! ### Semantics of CNF over total assignments

A total assignment maps every variable index to a Boolean.  A positive
literal `l` is true when the variable `l` is true; a negative literal `l`
is true when the variable `-l` is false.  This is the standard reading of
DIMACS literals used by every component of the toolkit. -/

def litSat (A : Int → Bool) (l : Int) : Bool :=
  if 0 < l then A l else !A (-l)


def clauseSat (A : Int → Bool) (c : RClause) : Bool :=
  c.any (litSat A)


def formulaSat (A : Int → Bool) (cs : List RClause) : Bool :=
  cs.all (clauseSat A)


/-- Restriction of an assignment to the original variables `1..N`
(the projection the solution converter performs). -/
def restrict (N : Int) (A : Int → Bool) : Int → Bool :=
  fun v => if v ≤ N then A v else false


/-! ### A recursive view of the chain emitted by `reduceSizeK`

`chainRest y rest` is the tail of the chain for the residual literals
`rest = x₃ … xₖ`, with `y` the most recently minted auxiliary variable:
`(¬y ∨ x₃ ∨ y+1), (¬(y+1) ∨ x₄ ∨ y+2), …, (¬y' ∨ x_{k-1} ∨ xₖ)`.
It is proved equal to the index-based `reduceSizeK` below and is the
handle for all inductive reasoning about the chain. -/

def chainRest (y : Int) : List Int → List RClause
  | a :: b :: c :: rest => [-y, a, y + 1] :: chainRest (y + 1) (b :: c :: rest)
  | [a, b] => [[-y, a, b]]
  | _ => []


/-! ### Concrete formulas used as test inputs -/

/-- A formula consisting of a single empty clause: unsatisfiable. -/
def F0empty : CNFFormula := ⟨0, 1, [[]]⟩

/-- A formula consisting of the single unit clause `(1)` over one variable. -/
def F1unit : CNFFormula := ⟨1, 1, [[1]]⟩

end Red

/-! ## Verifier embedding (`SATVerifcator.cpp`)

`struct Clause { vector<int> literals; }`, `struct CNFInstance`,
`struct Solution { vector<int8_t> assignment; int numVars; }`.  The
verifier returns a verdict plus the vector `unsatisfiedIndices` it
collects (the human-readable message built from that vector is display
data and is not modelled). -/

namespace Verif

abbrev VClause := List Int

structure CNFInstance where
  numVars : Int
  numClauses : Int
  clauses : List VClause
deriving DecidableEq, Repr


structure Solution where
  assignment : List Int
  numVars : Int
deriving DecidableEq, Repr


/-- The per-literal test inside `Clause::isSatisfied`: the literal is true
when its variable is in range of the assignment vector, is set, and the
stored value matches the literal sign.  (`var` is `abs(lit)`, hence never
negative, so `var < assignment.size()` is the only live bound.) -/
def litTrue (assignment : List Int) (lit : Int) : Bool :=
  let var : Int := |lit|
  let sign : Bool := decide (0 < lit)
  if var < (assignment.length : Int) ∧ assignment.getD var.toNat 0 ≠ -1 then
    (assignment.getD var.toNat 0 == 1) == sign
  else false


/-- `Clause::isSatisfied`: scan the literals, return true at the first
true literal (the C++ early `return true` is `List.any`). -/
def isSatisfied (c : VClause) (assignment : List Int) : Bool :=
  c.any (litTrue assignment)


/-- `Solution::Solution(int vars)`: `assignment.resize(vars + 1, -1)`. -/
def Solution.init (vars : Int) : Solution :=
  ⟨List.replicate (vars + 1).toNat (-1), vars⟩


/-- `Solution::setLiteral`. -/
def Solution.setLiteral (s : Solution) (lit : Int) : Solution :=
  let var : Int := |lit|
  let value : Bool := decide (0 < lit)
  if 0 ≤ var ∧ var < (s.assignment.length : Int) then
    { s with assignment := s.assignment.set var.toNat (if value then 1 else 0) }
  else s


/-- The clause loop of `SATVerifier::verify`, carrying the index, the two
counters and `unsatisfiedIndices`; after pushing an index the loop breaks
once the vector holds more than 10 entries. -/
def verifyLoop (asg : List Int) : List VClause → Nat → Nat → Nat → List Nat →
    Nat × List Nat
  | [], _, _, unsatC, idxs => (unsatC, idxs)
  | c :: rest, i, satC, unsatC, idxs =>
    if isSatisfied c asg then verifyLoop asg rest (i + 1) (satC + 1) unsatC idxs
    else
      let idxs2 := idxs ++ [i]
      if idxs2.length > 10 then (unsatC + 1, idxs2)
      else verifyLoop asg rest (i + 1) satC (unsatC + 1) idxs2


/-- `SATVerifier::verify`: empty instances are trivially satisfied;
otherwise the verdict is `unsatisfiedClauses == 0`, together with the
collected indices. -/
def verify (inst : CNFInstance) (solution : Solution) : Bool × List Nat :=
  if inst.clauses.isEmpty then (true, [])
  else
    let r := verifyLoop solution.assignment inst.clauses 0 0 0 []
    ((r.1 == 0), r.2)


/-- Specification helper: the indices (from base `i`) of the clauses not
satisfied by the assignment, in clause order. -/
def falsIdxsFrom (asg : List Int) : Nat → List VClause → List Nat
  | _, [] => []
  | i, c :: rest =>
    if isSatisfied c asg then falsIdxsFrom asg (i + 1) rest
    else i :: falsIdxsFrom asg (i + 1) rest

end Verif


/-- Twelve copies of the unit clause `(1)` over one variable. -/
def inst12 : Verif.CNFInstance := ⟨1, 12, List.replicate 12 [1]⟩

/-- The parsed solution `v -1 0` for one variable: variable 1 is false. -/
def sol1false : Verif.Solution := (Verif.Solution.init 1).setLiteral (-1)

/-! ## Solver embeddings

Both solver files define the same `struct Lit` and `struct Clause`; they
are embedded once here.  The two `Assignment` types differ (the re-scan
variant's `assign` refuses to re-assign a set variable) and are embedded
separately below.  `double` activity scores are modelled as `ℚ` with
`0.95`, `1e100` and `1e-100` as exact rationals; the `TimeoutManager` and
the static `nodesExplored` counters do not influence any returned value
and are not modelled — a fuel parameter stands in for the wall clock, with
`none` meaning the run did not finish within the fuel. -/

namespace Sol

structure Lit where
  var : Int
  sign : Bool
deriving DecidableEq, Repr


/-- The default constructor `Lit()` gives `var = 0`, `sign = true`. -/
def Lit.mk0 : Lit := ⟨0, true⟩

/-- `Lit::toInt`. -/
def Lit.toInt (l : Lit) : Int := if l.sign then l.var else -l.var

structure Clause where
  literals : List Lit
  id : Int
deriving DecidableEq, Repr

end Sol

/-- `varDecay = 0.95` (both CDCL constructors). -/
def varDecay : ℚ := 19 / 20

/-- The activity ceiling `1e100` of `bumpActivity`. -/
def bigActivity : ℚ := 10 ^ 100

/-- The rescaling factor `1e-100` of `bumpActivity`. -/
def activityRescale : ℚ := 1 / 10 ^ 100

/-- `bumpActivity` (identical in both solver files): add `varInc` to the
variable's score and rescale everything when the score passes `1e100`.
Returns the updated table and `varInc`. -/
def bumpActivity (act : List ℚ) (vi : ℚ) (var : Int) : List ℚ × ℚ :=
  if var ≤ 0 ∨ (act.length : Int) ≤ var then (act, vi)
  else
    let act1 := act.set var.toNat (act.getD var.toNat 0 + vi)
    if act1.getD var.toNat 0 > bigActivity then
      (act1.map (fun a => a * activityRescale), vi * activityRescale)
    else (act1, vi)

namespace Opt



open Sol


/-- `struct Assignment` of `SATSolverOverOptmised.cpp`: values are
`-1` (unset), `0` (false), `1` (true). -/
structure Assignment where
  values : List Int
  trail : List Int
deriving DecidableEq, Repr


/-- `Assignment(int maxVars)`: `values.resize(maxVars + 1, -1)`. -/
def Assignment.init (maxVars : Int) : Assignment :=
  ⟨List.replicate (maxVars + 1).toNat (-1), []⟩


def Assignment.contains (a : Assignment) (var : Int) : Bool :=
  decide (0 < var) && decide (var < (a.values.length : Int))
    && (a.values.getD var.toNat 0 != -1)


def Assignment.getValue (a : Assignment) (var : Int) : Bool :=
  a.values.getD var.toNat 0 == 1


/-- `Assignment::assign` of the watched-literal variant: it writes the
value and appends the variable to the trail unconditionally (no
already-set check). -/
def Assignment.assign (a : Assignment) (var : Int) (value : Bool) : Assignment :=
  if var ≤ 0 ∨ (a.values.length : Int) ≤ var then a
  else { values := a.values.set var.toNat (if value then 1 else 0),
         trail := a.trail ++ [var] }


/-- `Assignment::unassign`: clears the value, leaves the trail alone. -/
def Assignment.unassign (a : Assignment) (var : Int) : Assignment :=
  if var ≤ 0 ∨ (a.values.length : Int) ≤ var then a
  else { a with values := a.values.set var.toNat (-1) }


/-- One iteration of the `backtrackTo` loop: `unassign(trail.back())`
then `trail.pop_back()`. -/
def Assignment.popBack (a : Assignment) : Assignment :=
  { values := (a.unassign (a.trail.getLastD 0)).values, trail := a.trail.dropLast }


def Assignment.backtrackLoop : Nat → Assignment → Nat → Assignment
  | 0, a, _ => a
  | fuel + 1, a, position =>
    if position < a.trail.length then
      Assignment.backtrackLoop fuel a.popBack position
    else a


/-- `Assignment::backtrackTo`: `while (trail.size() > position)` pop and
unassign; `trail.length` rounds of the loop body always suffice. -/
def Assignment.backtrackTo (a : Assignment) (position : Nat) : Assignment :=
  Assignment.backtrackLoop a.trail.length a position


/-- `FastCDCLSolver::litToIdx`. -/
def litToIdx (lit : Int) : Nat :=
  if 0 < lit then (2 * lit).toNat else (2 * (-lit) + 1).toNat


/-- `watches[idx].push_back(i)`. -/
def watchPush (w : List (List Nat)) (idx i : Nat) : List (List Nat) :=
  w.set idx ((w.getD idx []) ++ [i])


/-- `FastCDCLSolver::initWatches`: register every clause under the
indices of its first one or two literals. -/
def initWatches (clauses : List Clause) (numVars : Int) : List (List Nat) :=
  (clauses.enum).foldl
    (fun w p =>
      let i := p.1
      let c := p.2
      let w1 := if 1 ≤ c.literals.length then
          watchPush w (litToIdx (Lit.toInt (c.literals.getD 0 Lit.mk0))) i
        else w
      if 2 ≤ c.literals.length then
        watchPush w1 (litToIdx (Lit.toInt (c.literals.getD 1 Lit.mk0))) i
      else w1)
    (List.replicate (2 * numVars + 2).toNat [])


/-- The scan over a clause's literals inside `propagate`: stop satisfied
at the first true literal, otherwise remember the last unassigned literal
and count the unassigned ones. -/
def scanClause (a : Assignment) : List Lit → Lit → Nat → Bool × Lit × Nat
  | [], u, n => (false, u, n)
  | l :: rest, u, n =>
    if a.contains l.var then
      if a.getValue l.var == l.sign then (true, u, n)
      else scanClause a rest u n
    else scanClause a rest l (n + 1)


/-- The working state of `propagate`: conflict flag, assignment, activity
table, `varInc` and the FIFO queue of falsified literals. -/
structure PropState where
  conflict : Bool
  assignment : Assignment
  activity : List ℚ
  varInc : ℚ
  queue : List Int
deriving DecidableEq, Repr


/-- The walk along one watch list: skip satisfied clauses, report a
conflict when a clause has no unassigned literal left, propagate a unit
(assign, bump, enqueue the complement of the new assignment). -/
def processWatchList (clauses : List Clause) : PropState → List Nat → PropState
  | s, [] => s
  | s, ci :: rest =>
    let c := clauses.getD ci ⟨[], -1⟩
    let scan := scanClause s.assignment c.literals Lit.mk0 0
    if scan.1 then processWatchList clauses s rest
    else if scan.2.2 = 0 then { s with conflict := true }
    else if scan.2.2 = 1 then
      let u := scan.2.1
      let bv := bumpActivity s.activity s.varInc u.var
      let nf := if u.sign then -u.var else u.var
      processWatchList clauses
        { s with assignment := s.assignment.assign u.var u.sign,
                 activity := bv.1, varInc := bv.2, queue := s.queue ++ [nf] } rest
    else processWatchList clauses s rest


/-- The queue loop of `propagate`. -/
def propLoop (clauses : List Clause) (watches : List (List Nat)) :
    Nat → PropState → Option PropState
  | 0, _ => none
  | fuel + 1, s =>
    match s.queue with
    | [] => some s
    | falseLit :: qrest =>
      let s2 := processWatchList clauses { s with queue := qrest }
        (watches.getD (litToIdx falseLit) [])
      if s2.conflict then some s2
      else propLoop clauses watches fuel s2


/-- The solver object: the immutable per-solve data (`clauses`,
`numVars`, the watch index) plus the propagation fuel standing in for the
wall clock. -/
structure Solver where
  clauses : List Clause
  numVars : Int
  watches : List (List Nat)
  propFuel : Nat
deriving Repr


def mkSolver (cls : List Clause) (nv : Int) (fuel : Nat) : Solver :=
  ⟨cls, nv, initWatches cls nv, fuel⟩


/-- `FastCDCLSolver::propagate`: seed the queue with the falsified
literal of the most recent trail entry, then drain it. -/
def propagate (slv : Solver) (a : Assignment) (act : List ℚ) (vi : ℚ) :
    Option PropState :=
  let q : List Int :=
    if a.trail.isEmpty then []
    else
      [if a.getValue (a.trail.getLastD 0) then -(a.trail.getLastD 0)
       else a.trail.getLastD 0]
  propLoop slv.clauses slv.watches slv.propFuel ⟨false, a, act, vi, q⟩


/-- `FastCDCLSolver::selectVariable`: unset variable of maximum activity,
ties to the lowest index, `-1` when the scan finds nothing (only possible
with no unset variable, since scores are non-negative and `bestScore`
starts at `-1`). -/
def selectVariable (numVars : Int) (a : Assignment) (act : List ℚ) : Int :=
  ((List.range numVars.toNat).foldl
    (fun (p : Int × ℚ) (i0 : Nat) =>
      let i : Int := (i0 : Int) + 1
      if a.contains i = false ∧ act.getD i.toNat 0 > p.2
      then (i, act.getD i.toNat 0) else p)
    ((-1 : Int), (-1 : ℚ))).1


/-- The fallback loop of the decision step: the first unset variable in
`1..numVars`, `-1` when every variable is set. -/
def firstUnassigned (numVars : Int) (a : Assignment) : Int :=
  match (List.range numVars.toNat).find? (fun i0 => !a.contains ((i0 : Int) + 1)) with
  | some i0 => (i0 : Int) + 1
  | none => -1


/-- The clause check of the totality test in `solve` (also the body of
`NaiveSolver::isSatisfied`). -/
def clauseSatisfied (a : Assignment) (c : Clause) : Bool :=
  c.literals.any (fun lit => a.contains lit.var && (a.getValue lit.var == lit.sign))


def allSatisfied (clauses : List Clause) (a : Assignment) : Bool :=
  clauses.all (clauseSatisfied a)


/-- The mutable per-solve state of `FastCDCLSolver::solve`. -/
structure SolverState where
  assignment : Assignment
  activity : List ℚ
  varInc : ℚ
  conflicts : Nat
  decisions : Nat
deriving DecidableEq, Repr


inductive StepRes where
  | done : Bool × Assignment → StepRes
  | timeout : StepRes
  | next : SolverState → StepRes
deriving DecidableEq, Repr


/-- The decision cap `while (decisions < 1000000)`. -/
def maxDecisions1 : Nat := 1000000

/-- One iteration of the `solve` loop of the watched-literal variant:
exit with `{false, assignment}` at the decision cap; propagate; on
conflict either report UNSAT (trail ≤ 1) or backtrack to half the trail
length, decay every 50 conflicts, restart past 100 conflicts; otherwise
check totality (returning SAT only after `allSat`), then decide on the
best-activity variable with polarity false on every third decision.  The
final `return {assignment.size() == numVars, assignment}` of the C++ is
the `var = -1` branch. -/
def step (slv : Solver) (s : SolverState) : StepRes :=
  if maxDecisions1 ≤ s.decisions then .done (false, s.assignment)
  else
    let d := s.decisions + 1
    match propagate slv s.assignment s.activity s.varInc with
    | none => .timeout
    | some ps =>
      if ps.conflict then
        let conflicts := s.conflicts + 1
        if ps.assignment.trail.length ≤ 1 then .done (false, ps.assignment)
        else
          let a2 := ps.assignment.backtrackTo (ps.assignment.trail.length / 2)
          let vi2 := if conflicts % 50 = 0 then ps.varInc / varDecay else ps.varInc
          if 100 < conflicts then
            .next ⟨a2.backtrackTo 0, ps.activity, vi2, 0, d⟩
          else
            .next ⟨a2, ps.activity, vi2, conflicts, d⟩
      else
        let a := ps.assignment
        if a.trail.length = slv.numVars.toNat ∧ allSatisfied slv.clauses a then
          .done (true, a)
        else
          let var0 := selectVariable slv.numVars a ps.activity
          let var := if var0 = -1 then firstUnassigned slv.numVars a else var0
          if var = -1 then .done (decide (a.trail.length = slv.numVars.toNat), a)
          else
            let polarity := if d % 3 = 0 then false else true
            .next ⟨a.assign var polarity, ps.activity, ps.varInc, s.conflicts, d⟩


/-- The state transformer view of `step` (`.next` advances, every other
outcome is absorbing), used to reason about the iterated loop. -/
def stepState (slv : Solver) (s : SolverState) : SolverState :=
  match step slv s with
  | .next s2 => s2
  | _ => s


def runLoop (slv : Solver) : Nat → SolverState → Option (Bool × Assignment)
  | 0, _ => none
  | fuel + 1, s =>
    match step slv s with
    | .done r => some r
    | .timeout => none
    | .next s2 => runLoop slv fuel s2


/-- The state set up by `solve`/the constructor: empty assignment, zero
activity (size `numVars + 1`), `varInc = 1`, counters zero. -/
def initState (slv : Solver) : SolverState :=
  ⟨Assignment.init slv.numVars, List.replicate (slv.numVars + 1).toNat 0, 1, 0, 0⟩


def solve (slv : Solver) (fuel : Nat) : Option (Bool × Assignment) :=
  runLoop slv fuel (initState slv)

end Opt

namespace Opt2



open Sol


/-- `struct Assignment` of `SATSOLverOPtimsed2.cpp` (the re-scan
variant); same data as `Opt.Assignment` but `assign` checks that the
variable is unset before writing. -/
structure Assignment where
  values : List Int
  trail : List Int
deriving DecidableEq, Repr


def Assignment.init (maxVars : Int) : Assignment :=
  ⟨List.replicate (maxVars + 1).toNat (-1), []⟩


def Assignment.contains (a : Assignment) (var : Int) : Bool :=
  decide (0 < var) && decide (var < (a.values.length : Int))
    && (a.values.getD var.toNat 0 != -1)


def Assignment.getValue (a : Assignment) (var : Int) : Bool :=
  a.values.getD var.toNat 0 == 1


/-- `Assignment::assign` of the re-scan variant: only acts when the
variable is still unset (`values[var] == -1`). -/
def Assignment.assign (a : Assignment) (var : Int) (value : Bool) : Assignment :=
  if var ≤ 0 ∨ (a.values.length : Int) ≤ var then a
  else if a.values.getD var.toNat 0 = -1 then
    { values := a.values.set var.toNat (if value then 1 else 0),
      trail := a.trail ++ [var] }
  else a


def Assignment.unassign (a : Assignment) (var : Int) : Assignment :=
  if var ≤ 0 ∨ (a.values.length : Int) ≤ var then a
  else { a with values := a.values.set var.toNat (-1) }


def Assignment.popBack (a : Assignment) : Assignment :=
  { values := (a.unassign (a.trail.getLastD 0)).values, trail := a.trail.dropLast }


def Assignment.backtrackLoop : Nat → Assignment → Nat → Assignment
  | 0, a, _ => a
  | fuel + 1, a, position =>
    if position < a.trail.length then
      Assignment.backtrackLoop fuel a.popBack position
    else a


def Assignment.backtrackTo (a : Assignment) (position : Nat) : Assignment :=
  Assignment.backtrackLoop a.trail.length a position


/-- `Clause::isSatisfied(values)` of the re-scan variant (`lit.var` is
compared against `values.size()` as a `size_t`, so a negative variable
also fails the bound). -/
def clauseIsSatisfied (c : Clause) (values : List Int) : Bool :=
  c.literals.any (fun lit =>
    if 0 ≤ lit.var ∧ lit.var < (values.length : Int)
        ∧ values.getD lit.var.toNat 0 ≠ -1 then
      (values.getD lit.var.toNat 0 == 1) == lit.sign
    else false)


/-- `Assignment::verifySolution`. -/
def Assignment.verifySolution (a : Assignment) (clauses : List Clause) : Bool :=
  clauses.all (fun c => clauseIsSatisfied c a.values)


/-- The literal scan inside `unitPropagation`: remember the last
unassigned literal and their count; `hasConflict` stays true only while
every scanned literal is assigned false (a true literal breaks out). -/
def upScan (a : Assignment) : List Lit → Lit → Nat → Bool → Lit × Nat × Bool
  | [], u, n, hc => (u, n, hc)
  | l :: rest, u, n, hc =>
    if a.contains l.var then
      if a.getValue l.var == l.sign then (u, n, false)
      else upScan a rest u n hc
    else upScan a rest l (n + 1) false


/-- The working state of one `unitPropagation` pass. -/
structure UPState where
  conflict : Bool
  assignment : Assignment
  activity : List ℚ
  varInc : ℚ
  changed : Bool
deriving DecidableEq, Repr


/-- One pass of the `for (clause : clauses)` loop in `unitPropagation`:
skip satisfied clauses, stop with a conflict when all literals are
assigned false, assign-and-bump on a unit clause. -/
def upPass : UPState → List Clause → UPState
  | s, [] => s
  | s, c :: rest =>
    if clauseIsSatisfied c s.assignment.values then upPass s rest
    else
      let scan := upScan s.assignment c.literals Lit.mk0 0 true
      if scan.2.2 ∧ scan.2.1 = 0 then { s with conflict := true }
      else if scan.2.1 = 1 then
        let u := scan.1
        let bv := bumpActivity s.activity s.varInc u.var
        upPass { s with assignment := s.assignment.assign u.var u.sign,
                        activity := bv.1, varInc := bv.2, changed := true } rest
      else upPass s rest


/-- `FastCDCLSolver::unitPropagation`: rescan all clauses until a pass
changes nothing (fuel bounds the number of passes; `none` = the pass
loop did not reach a fixed point within the fuel, which in the C++ is
only left via the timeout exception). -/
def upLoop (clauses : List Clause) : Nat → Assignment → List ℚ → ℚ → Option UPState
  | 0, _, _, _ => none
  | fuel + 1, a, act, vi =>
    let s := upPass ⟨false, a, act, vi, false⟩ clauses
    if s.conflict then some s
    else if s.changed then upLoop clauses fuel s.assignment s.activity s.varInc
    else some s


def selectVariable (numVars : Int) (a : Assignment) (act : List ℚ) : Int :=
  ((List.range numVars.toNat).foldl
    (fun (p : Int × ℚ) (i0 : Nat) =>
      let i : Int := (i0 : Int) + 1
      if a.contains i = false ∧ act.getD i.toNat 0 > p.2
      then (i, act.getD i.toNat 0) else p)
    ((-1 : Int), (-1 : ℚ))).1


def firstUnassigned (numVars : Int) (a : Assignment) : Int :=
  match (List.range numVars.toNat).find? (fun i0 => !a.contains ((i0 : Int) + 1)) with
  | some i0 => (i0 : Int) + 1
  | none => -1


structure Solver2 where
  clauses : List Clause
  numVars : Int
  propFuel : Nat
deriving Repr


structure SolverState2 where
  assignment : Assignment
  activity : List ℚ
  varInc : ℚ
  conflicts : Nat
  decisions : Nat
deriving DecidableEq, Repr


inductive StepRes2 where
  | done : Bool × Assignment → StepRes2
  | timeout : StepRes2
  | next : SolverState2 → StepRes2
deriving DecidableEq, Repr


/-- The decision cap `maxDecisions = 5000000`. -/
def maxDecisions2 : Nat := 5000000

/-- One iteration of the `solve` loop of the re-scan variant: exit with
`{false, assignment}` at the decision cap; run `unitPropagation`; on a
conflict either report UNSAT (trail ≤ 1) or backtrack to
`max(0, trail.size() - 5)`, decay every 100 conflicts, restart when
`conflicts > 200 * (1 + conflicts / 1000)`; when every variable is
assigned run the strict final verification — on failure backtrack to half
the trail (or report UNSAT on an empty trail); otherwise decide with
alternating polarity (`decisions % 2 == 0`). -/
def step (slv : Solver2) (s : SolverState2) : StepRes2 :=
  if maxDecisions2 ≤ s.decisions then .done (false, s.assignment)
  else
    let d := s.decisions + 1
    match upLoop slv.clauses slv.propFuel s.assignment s.activity s.varInc with
    | none => .timeout
    | some ps =>
      if ps.conflict then
        let conflicts := s.conflicts + 1
        if ps.assignment.trail.length ≤ 1 then .done (false, ps.assignment)
        else
          let backtrackPos := (max 0 ((ps.assignment.trail.length : Int) - 5)).toNat
          let a2 := ps.assignment.backtrackTo backtrackPos
          let vi2 := if conflicts % 100 = 0 then ps.varInc / varDecay else ps.varInc
          if 200 * (1 + conflicts / 1000) < conflicts then
            .next ⟨a2.backtrackTo 0, ps.activity, vi2, 0, d⟩
          else
            .next ⟨a2, ps.activity, vi2, conflicts, d⟩
      else
        let a := ps.assignment
        if a.trail.length = slv.numVars.toNat then
          if a.verifySolution slv.clauses then .done (true, a)
          else if 0 < a.trail.length then
            .next ⟨a.backtrackTo (a.trail.length / 2), ps.activity, ps.varInc,
              s.conflicts, d⟩
          else .done (false, a)
        else
          let var0 := selectVariable slv.numVars a ps.activity
          let var := if var0 = -1 then firstUnassigned slv.numVars a else var0
          if var = -1 then
            if a.verifySolution slv.clauses then .done (true, a)
            else .done (false, a)
          else
            let polarity := decide (d % 2 = 0)
            .next ⟨a.assign var polarity, ps.activity, ps.varInc, s.conflicts, d⟩


def stepState (slv : Solver2) (s : SolverState2) : SolverState2 :=
  match step slv s with
  | .next s2 => s2
  | _ => s


def runLoop (slv : Solver2) : Nat → SolverState2 → Option (Bool × Assignment)
  | 0, _ => none
  | fuel + 1, s =>
    match step slv s with
    | .done r => some r
    | .timeout => none
    | .next s2 => runLoop slv fuel s2


def initState (slv : Solver2) : SolverState2 :=
  ⟨Assignment.init slv.numVars, List.replicate (slv.numVars + 1).toNat 0, 1, 0, 0⟩


def solve (slv : Solver2) (fuel : Nat) : Option (Bool × Assignment) :=
  runLoop slv fuel (initState slv)

end Opt2


/-! ## Claim theorems about the CDCL solvers: C1 and C4 -/

/-- The single clause `(-1 ∨ -2 ∨ 3 ∨ -4)` over four variables. -/
def C1cls : List Sol.Clause := [⟨[⟨1, false⟩, ⟨2, false⟩, ⟨3, true⟩, ⟨4, false⟩], 0⟩]

def C1slv : Opt.Solver := Opt.mkSolver C1cls 4 20


/-- The clauses `(1∨-2∨7)`, `(1∨-7∨8)`, `(1∨-7∨-8)` over eight
variables, driving the re-scan solver into a conflict at trail length 4. -/
def C4cls : List Sol.Clause :=
  [⟨[⟨1, true⟩, ⟨2, false⟩, ⟨7, true⟩], 0⟩,
   ⟨[⟨1, true⟩, ⟨7, false⟩, ⟨8, true⟩], 1⟩,
   ⟨[⟨1, true⟩, ⟨7, false⟩, ⟨8, false⟩], 2⟩]


def C4slv : Opt2.Solver2 := ⟨C4cls, 8, 20⟩

/-- The state reached after two iterations of the re-scan solver's loop
on `C4cls` (decisions `x1 = false`, `x2 = true`). -/
def C4s2 : Opt2.SolverState2 :=
  Opt2.stepState C4slv (Opt2.stepState C4slv (Opt2.initState C4slv))


/-- The trail length after one loop iteration, when the iteration
continues the loop. -/
def Opt2.stepTrailLen (slv : Opt2.Solver2) (s : Opt2.SolverState2) : Option Nat :=
  match Opt2.step slv s with
  | .next s2 => some s2.assignment.trail.length
  | _ => none


/-- The two unit clauses `(1)` and `(-1)` over one variable, and the
state in which `x1` has just been decided true: propagation then
reports a conflict with the trail at length 1. -/
def C4wslv : Opt.Solver :=
  Opt.mkSolver [⟨[⟨1, true⟩], 0⟩, ⟨[⟨1, false⟩], 1⟩] 1 20


def C4wstate : Opt.SolverState := ⟨⟨[-1, 1], [1]⟩, [0, 0], 1, 0, 0⟩


/-! ## Claim C5: trail discipline of the assignments -/

/-- The operations the spec quantifies over for the trail invariant
(`unassign` is exercised only through `backtrackTo`, which is the
discipline the spec itself prescribes for callers). -/
inductive AOp where
  | assign (v : Int) (b : Bool)
  | backtrack (k : Nat)
deriving DecidableEq, Repr


def Opt2.applyOp (a : Opt2.Assignment) : AOp → Opt2.Assignment
  | .assign v b => a.assign v b
  | .backtrack k => a.backtrackTo k


/-- Well-formedness of the re-scan variant's assignment: the trail has
no duplicates and trail membership coincides with being set. -/
def Opt2.AInv (a : Opt2.Assignment) : Prop :=
  a.trail.Nodup ∧ ∀ v : Int, v ∈ a.trail ↔ a.contains v = true


/-- The four clauses `(x1 ∨ x2)`, `(x1 ∨ ¬x2)`, `(¬x1 ∨ x2)`,
`(¬x1 ∨ ¬x2)` written as the watched variant's clause list — an
unsatisfiable formula on two variables. -/
def C6cls : List Sol.Clause :=
  [⟨[⟨1, false⟩, ⟨2, false⟩], 0⟩, ⟨[⟨1, false⟩, ⟨2, true⟩], 1⟩,
   ⟨[⟨1, true⟩, ⟨2, false⟩], 2⟩, ⟨[⟨1, true⟩, ⟨2, true⟩], 3⟩]


def C6slv : Opt.Solver := Opt.mkSolver C6cls 2 10

/-- The loop invariant of the run of the watched variant on `C6cls`: the
assignment is either empty or a single decided variable, the activity
table keeps length 3 and non-negative scores, and `varInc` stays
positive. -/
def C6inv (s : Opt.SolverState) : Prop :=
  (s.assignment = ⟨[-1, -1, -1], []⟩
    ∨ (∃ b : Bool, s.assignment = ⟨[-1, if b then 1 else 0, -1], [1]⟩)
    ∨ (∃ b : Bool, s.assignment = ⟨[-1, -1, if b then 1 else 0], [2]⟩))
  ∧ s.activity.length = 3
  ∧ (∀ i : Nat, 0 ≤ s.activity.getD i 0)
  ∧ 0 < s.varInc


def C6wslv : Opt.Solver := Opt.mkSolver [] 0 1

def C6wstate : Opt.SolverState :=
  ⟨Opt.Assignment.init 0, [0], 1, 0, Opt.maxDecisions1⟩

/-! ## The development: the lemmas and the claim theorems -/

namespace Red


lemma getD_map_range (n i : Nat) (f : Nat → Int) (hi : i < n) :
    ((List.range n).map f).getD i 0 = f i := by
  rw [List.getD_eq_getElem?_getD]
  simp [List.getElem?_map, List.getElem?_range, hi]


lemma chainRest_closed_form : ∀ (rest : List Int) (y : Int), 2 ≤ rest.length →
    chainRest y rest =
      ((List.range (rest.length - 2)).map
        (fun i : Nat => [-(y + (i : Int)), rest.getD i 0, y + (i : Int) + 1])) ++
      [[-(y + ((rest.length - 2 : Nat) : Int)), rest.getD (rest.length - 2) 0,
        rest.getD (rest.length - 1) 0]] := by
  intro rest
  induction rest with
  | nil => intro y h; simp at h
  | cons a tail ih =>
    intro y h
    match tail with
    | [] => simp at h
    | [b] => simp [chainRest]
    | b :: c :: t =>
      have hlen : 2 ≤ (b :: c :: t).length := by simp
      have hstep : chainRest y (a :: b :: c :: t)
          = [-y, a, y + 1] :: chainRest (y + 1) (b :: c :: t) := rfl
      rw [hstep, ih (y + 1) hlen]
      have hm : (a :: b :: c :: t).length - 2 = ((b :: c :: t).length - 2) + 1 := by
        simp only [List.length_cons]; omega
      rw [hm, List.range_succ_eq_map, List.map_cons, List.map_map]
      simp only [List.cons_append]
      rw [List.cons_eq_cons]
      constructor
      · simp
      refine congrArg₂ (· ++ ·) ?_ ?_
      · apply List.map_congr_left
        intro i _
        simp only [Function.comp_apply, List.getD_cons_succ]
        have harith1 : y + ((Nat.succ i : Nat) : Int) = y + 1 + (i : Int) := by
          push_cast; ring
        rw [harith1]
      · have h3 : (a :: b :: c :: t).length - 1 = ((b :: c :: t).length - 1) + 1 := by
          simp only [List.length_cons]; omega
        have h4 : y + (((b :: c :: t).length - 2 + 1 : Nat) : Int)
            = y + 1 + (((b :: c :: t).length - 2 : Nat) : Int) := by
          push_cast; ring
        rw [h3, h4]
        simp only [List.getD_cons_succ]


lemma reduceSizeK_eq_chain (next l0 l1 : Int) (rest : List Int)
    (h : 2 ≤ rest.length) :
    reduceSizeK next (l0 :: l1 :: rest)
      = ([l0, l1, next] :: chainRest next rest,
         next + (rest.length : Int) - 1) := by
  have hk : (l0 :: l1 :: rest).length = rest.length + 2 := by simp
  have hnot : ¬ (l0 :: l1 :: rest).length < 4 := by
    simp only [List.length_cons]; omega
  rw [chainRest_closed_form rest next h]
  unfold reduceSizeK
  rw [if_neg hnot, hk]
  have e1 : rest.length + 2 - 3 = rest.length - 1 := by omega
  have e2 : rest.length + 2 - 4 = rest.length - 2 := by omega
  have e3 : rest.length + 2 - 2 = rest.length := by omega
  have e4 : rest.length + 2 - 1 = rest.length + 1 := by omega
  rw [e1, e2, e3, e4]
  have haux : ∀ i : Nat, i < rest.length - 1 →
      ((List.range (rest.length - 1)).map (fun j : Nat => next + (j : Int))).getD i 0
        = next + (i : Int) := by
    intro i hi; exact getD_map_range _ _ _ hi
  simp only [Prod.mk.injEq]
  refine ⟨?_, ?_⟩
  · simp only [List.cons_append]
    rw [List.cons_eq_cons]
    constructor
    · -- head clause
      have h0 : (0 : Nat) < rest.length - 1 := by omega
      have h00 := haux 0 h0
      simp only [Nat.cast_zero, add_zero] at h00
      rw [h00]
      rfl
    refine congrArg₂ (· ++ ·) ?_ ?_
    · apply List.map_congr_left
      intro i hi
      rw [List.mem_range] at hi
      have hi1 : i < rest.length - 1 := by omega
      have hi2 : i + 1 < rest.length - 1 := by omega
      rw [haux i hi1, haux (i + 1) hi2]
      have harith : next + ((i + 1 : Nat) : Int) = next + (i : Int) + 1 := by
        push_cast; ring
      rw [harith]
      rfl
    · have hlast : rest.length - 2 < rest.length - 1 := by omega
      rw [haux _ hlast]
      have g2 : (l0 :: l1 :: rest).getD rest.length 0 = rest.getD (rest.length - 2) 0 := by
        have hr : rest.length = (rest.length - 2) + 1 + 1 := by omega
        rw [hr]; simp
      have g3 : (l0 :: l1 :: rest).getD (rest.length + 1) 0
          = rest.getD (rest.length - 1) 0 := by
        have hr : rest.length + 1 = (rest.length - 1) + 1 + 1 := by omega
        rw [hr]; simp
      rw [g2, g3]
  · push_cast
    ring


/-! ### Congruence of satisfaction under agreement on the variables used -/

lemma litSat_pos (A : Int → Bool) (l : Int) (h : 0 < l) : litSat A l = A l :=
  if_pos h


lemma litSat_neg (A : Int → Bool) (l : Int) (h : l < 0) : litSat A l = !A (-l) :=
  if_neg (by omega)


lemma litSat_congr (A B : Int → Bool) (l : Int) (hl : l ≠ 0)
    (h : A |l| = B |l|) : litSat A l = litSat B l := by
  rcases lt_or_gt_of_ne hl with hneg | hpos
  · rw [abs_of_neg hneg] at h
    rw [litSat_neg A l hneg, litSat_neg B l hneg, h]
  · rw [abs_of_pos hpos] at h
    rw [litSat_pos A l hpos, litSat_pos B l hpos, h]


lemma clauseSat_congr (A B : Int → Bool) (c : RClause)
    (h : ∀ l ∈ c, l ≠ 0 ∧ A |l| = B |l|) : clauseSat A c = clauseSat B c := by
  induction c with
  | nil => rfl
  | cons l rest ih =>
    have hl := h l (by simp)
    have hrest : ∀ x ∈ rest, x ≠ 0 ∧ A |x| = B |x| := fun x hx => h x (by simp [hx])
    simp only [clauseSat, List.any_cons]
    rw [litSat_congr A B l hl.1 hl.2]
    have := ih hrest
    simp only [clauseSat] at this
    rw [this]


lemma formulaSat_congr (A B : Int → Bool) (cs : List RClause)
    (h : ∀ c ∈ cs, ∀ l ∈ c, l ≠ 0 ∧ A |l| = B |l|) :
    formulaSat A cs = formulaSat B cs := by
  induction cs with
  | nil => rfl
  | cons c rest ih =>
    have hc := h c (by simp)
    have hrest : ∀ d ∈ rest, ∀ l ∈ d, l ≠ 0 ∧ A |l| = B |l| :=
      fun d hd => h d (by simp [hd])
    simp only [formulaSat, List.all_cons]
    rw [clauseSat_congr A B c hc]
    have := ih hrest
    simp only [formulaSat] at this
    rw [this]


lemma formulaSat_append (A : Int → Bool) (xs ys : List RClause) :
    formulaSat A (xs ++ ys) = (formulaSat A xs && formulaSat A ys) := by
  simp [formulaSat, List.all_append]


/-! ### Which literals appear in a chain -/

lemma chainRest_lits : ∀ (rest : List Int) (y : Int), 0 < y →
    ∀ c ∈ chainRest y rest, ∀ l ∈ c,
      l ∈ rest ∨ (l ≠ 0 ∧ y ≤ |l| ∧ |l| ≤ y + (rest.length : Int) - 2) := by
  intro rest
  induction rest with
  | nil => intro y _ c hc; simp [chainRest] at hc
  | cons a tail ih =>
    intro y hy c hc l hl
    match tail with
    | [] => simp [chainRest] at hc
    | [b] =>
      simp only [chainRest, List.mem_singleton] at hc
      subst hc
      simp only [List.mem_cons, List.mem_singleton, List.not_mem_nil, or_false] at hl
      rcases hl with h1 | h2 | h3
      · right
        subst h1
        refine ⟨by omega, ?_, ?_⟩ <;> rw [abs_neg, abs_of_pos hy] <;> simp <;> omega
      · left; subst h2; simp
      · left; subst h3; simp
    | b :: c2 :: t =>
      have hstep : chainRest y (a :: b :: c2 :: t)
          = [-y, a, y + 1] :: chainRest (y + 1) (b :: c2 :: t) := rfl
      rw [hstep] at hc
      rcases List.mem_cons.1 hc with hhead | htail
      · subst hhead
        simp only [List.mem_cons, List.mem_singleton, List.not_mem_nil, or_false] at hl
        rcases hl with h1 | h2 | h3
        · right
          subst h1
          refine ⟨by omega, ?_, ?_⟩ <;> rw [abs_neg, abs_of_pos hy] <;> simp <;> omega
        · left; subst h2; simp
        · right
          subst h3
          have hp : (0:Int) < y + 1 := by omega
          refine ⟨by omega, ?_, ?_⟩ <;> rw [abs_of_pos hp] <;> simp <;> omega
      · have hy1 : (0:Int) < y + 1 := by omega
        rcases ih (y + 1) hy1 c htail l hl with hmem | ⟨hne, hlo, hhi⟩
        · left; simp [hmem]
        · right
          refine ⟨hne, by omega, ?_⟩
          have : ((b :: c2 :: t).length : Int) + 1 = ((a :: b :: c2 :: t).length : Int) := by
            simp
          omega


/-! ### Soundness and completeness of the chain encoding -/

lemma chainRest_backward : ∀ (rest : List Int) (y : Int) (A : Int → Bool),
    2 ≤ rest.length → 0 < y → formulaSat A (chainRest y rest) = true →
    A y = true → clauseSat A rest = true := by
  intro rest
  induction rest with
  | nil => intro y A hlen; simp at hlen
  | cons a tail ih =>
    intro y A hlen hy hsat hAy
    match tail with
    | [] => simp at hlen
    | [b] =>
      simp only [chainRest, formulaSat, List.all_cons, List.all_nil,
        Bool.and_true] at hsat
      simp only [clauseSat, List.any_cons, List.any_nil, Bool.or_false] at hsat ⊢
      rw [litSat_neg A (-y) (by omega)] at hsat
      simp only [neg_neg, hAy, Bool.not_true, Bool.false_or] at hsat
      exact hsat
    | b :: c2 :: t =>
      have hstep : chainRest y (a :: b :: c2 :: t)
          = [-y, a, y + 1] :: chainRest (y + 1) (b :: c2 :: t) := rfl
      rw [hstep] at hsat
      simp only [formulaSat, List.all_cons, Bool.and_eq_true] at hsat
      obtain ⟨hc1, hrest⟩ := hsat
      simp only [clauseSat, List.any_cons, List.any_nil, Bool.or_false] at hc1
      rw [litSat_neg A (-y) (by omega)] at hc1
      simp only [neg_neg, hAy, Bool.not_true, Bool.false_or, Bool.or_eq_true] at hc1
      rcases hc1 with ha | hy1
      · simp [clauseSat, List.any_cons, ha]
      · rw [litSat_pos A (y + 1) (by omega)] at hy1
        have hcl := ih (y + 1) A (by simp) (by omega) (by
          simpa [formulaSat] using hrest) hy1
        simp only [clauseSat, List.any_cons] at hcl ⊢
        rw [hcl]
        simp


lemma chainRest_forward : ∀ (rest : List Int) (y : Int) (A : Int → Bool) (b : Bool),
    2 ≤ rest.length → 0 < y → (∀ l ∈ rest, l ≠ 0 ∧ |l| < y) →
    (b = true → clauseSat A rest = true) →
    ∃ A2 : Int → Bool, (∀ v : Int, v < y → A2 v = A v) ∧ A2 y = b ∧
      formulaSat A2 (chainRest y rest) = true := by
  intro rest
  induction rest with
  | nil => intro y A b h; simp at h
  | cons a tail ih =>
    intro y A b hlen hy hfresh hb
    match tail with
    | [] => simp at hlen
    | [b'] =>
      have hA2y : (fun v => if v = y then b else A v) y = b := by
        show (if y = y then b else A y) = b
        rw [if_pos rfl]
      refine ⟨fun v => if v = y then b else A v, fun v hv => ?_, hA2y, ?_⟩
      · show (if v = y then b else A v) = A v
        rw [if_neg (by omega)]
      · simp only [chainRest, formulaSat, List.all_cons, List.all_nil, Bool.and_true]
        simp only [clauseSat, List.any_cons, List.any_nil, Bool.or_false]
        rw [litSat_neg _ (-y) (by omega), neg_neg]
        have hyy : (if y = y then b else A y) = b := if_pos rfl
        rw [hyy]
        have hfa := hfresh a (by simp)
        have hfb := hfresh b' (by simp)
        have e1 : litSat (fun v => if v = y then b else A v) a = litSat A a := by
          apply litSat_congr _ _ _ hfa.1
          show (if |a| = y then b else A |a|) = A |a|
          rw [if_neg (by have := hfa.2; omega)]
        have e2 : litSat (fun v => if v = y then b else A v) b' = litSat A b' := by
          apply litSat_congr _ _ _ hfb.1
          show (if |b'| = y then b else A |b'|) = A |b'|
          rw [if_neg (by have := hfb.2; omega)]
        rw [e1, e2]
        cases hbv : b with
        | false => simp
        | true =>
          have hcl := hb hbv
          simp only [clauseSat, List.any_cons, List.any_nil, Bool.or_false] at hcl
          rw [hcl]
          simp
    | b2 :: c2 :: t =>
      have hy1 : (0:Int) < y + 1 := by omega
      have hlen2 : 2 ≤ (b2 :: c2 :: t).length := by simp
      have hfresh2 : ∀ l ∈ (b2 :: c2 :: t), l ≠ 0 ∧ |l| < y + 1 := by
        intro l hl
        have := hfresh l (by simp [hl])
        exact ⟨this.1, by omega⟩
      have hb2 : (b && !(litSat A a)) = true → clauseSat A (b2 :: c2 :: t) = true := by
        intro hband
        simp only [Bool.and_eq_true] at hband
        obtain ⟨hbt, hna⟩ := hband
        have hna2 : litSat A a = false := by
          revert hna; cases litSat A a <;> simp
        have hcl := hb hbt
        simp only [clauseSat, List.any_cons] at hcl ⊢
        rw [hna2] at hcl
        simpa using hcl
      obtain ⟨A1, hA1agree, hA1y, hA1sat⟩ :=
        ih (y + 1) A (b && !(litSat A a)) hlen2 hy1 hfresh2 hb2
      have hA2y : (fun v => if v = y then b else A1 v) y = b := by
        show (if y = y then b else A1 y) = b
        rw [if_pos rfl]
      refine ⟨fun v => if v = y then b else A1 v, fun v hv => ?_, hA2y, ?_⟩
      · show (if v = y then b else A1 v) = A v
        rw [if_neg (by omega)]
        exact hA1agree v (by omega)
      · have hstep : chainRest y (a :: b2 :: c2 :: t)
            = [-y, a, y + 1] :: chainRest (y + 1) (b2 :: c2 :: t) := rfl
        rw [hstep]
        simp only [formulaSat, List.all_cons, Bool.and_eq_true]
        constructor
        · simp only [clauseSat, List.any_cons, List.any_nil, Bool.or_false]
          rw [litSat_neg _ (-y) (by omega), neg_neg]
          have hyy : (if y = y then b else A1 y) = b := if_pos rfl
          rw [hyy]
          have hfa := hfresh a (by simp)
          have e1 : litSat (fun v => if v = y then b else A1 v) a = litSat A a := by
            apply litSat_congr _ _ _ hfa.1
            show (if |a| = y then b else A1 |a|) = A |a|
            rw [if_neg (by have := hfa.2; omega)]
            exact hA1agree _ (by have := hfa.2; omega)
          have e3 : litSat (fun v => if v = y then b else A1 v) (y + 1)
              = (b && !(litSat A a)) := by
            rw [litSat_pos _ (y + 1) (by omega)]
            show (if y + 1 = y then b else A1 (y + 1)) = (b && !(litSat A a))
            rw [if_neg (by omega)]
            exact hA1y
          rw [e1, e3]
          cases hbv : b with
          | false => simp
          | true =>
            cases hav : litSat A a with
            | true => simp
            | false => simp
        · have hcong : formulaSat (fun v => if v = y then b else A1 v)
              (chainRest (y + 1) (b2 :: c2 :: t))
              = formulaSat A1 (chainRest (y + 1) (b2 :: c2 :: t)) := by
            apply formulaSat_congr
            intro c hc l hl
            rcases chainRest_lits (b2 :: c2 :: t) (y + 1) hy1 c hc l hl with
              hmem | ⟨hne, hlo, _⟩
            · have hfr := hfresh l (by simp [hmem])
              refine ⟨hfr.1, ?_⟩
              show (if |l| = y then b else A1 |l|) = A1 |l|
              rw [if_neg (by have := hfr.2; omega)]
            · refine ⟨hne, ?_⟩
              show (if |l| = y then b else A1 |l|) = A1 |l|
              rw [if_neg (by omega)]
          show formulaSat (fun v => if v = y then b else A1 v)
            (chainRest (y + 1) (b2 :: c2 :: t)) = true
          rw [hcong]
          exact hA1sat


/-! ### Per-clause correctness of `reduceClause` -/

lemma reduceClause_nil_eq (next : Int) : reduceClause next [] = ([], next) := rfl

lemma reduceClause_one_eq (next x : Int) :
    reduceClause next [x]
      = ([[x, next, next + 1], [x, next, -(next + 1)],
          [x, -next, next + 1], [x, -next, -(next + 1)]], next + 2) := rfl


lemma reduceClause_two_eq (next x y : Int) :
    reduceClause next [x, y]
      = ([[x, y, next], [x, y, -next]], next + 1) := rfl


lemma reduceClause_three_eq (next x y z : Int) :
    reduceClause next [x, y, z] = ([[x, y, z]], next) := rfl


lemma reduceClause_big (next : Int) (c : RClause) (h : 4 ≤ c.length) :
    reduceClause next c = reduceSizeK next c := by
  simp only [reduceClause, beq_iff_eq]
  rw [if_neg (by omega), if_neg (by omega), if_neg (by omega), if_neg (by omega)]


lemma reduceClause_big_eq (next x y z w : Int) (t : List Int) :
    reduceClause next (x :: y :: z :: w :: t)
      = ([x, y, next] :: chainRest next (z :: w :: t),
         next + ((z :: w :: t).length : Int) - 1) := by
  rw [reduceClause_big next _ (by simp),
    reduceSizeK_eq_chain next x y (z :: w :: t) (by simp)]


lemma reduceClause_next_mono (next : Int) (c : RClause) :
    next ≤ (reduceClause next c).2 := by
  match c with
  | [] => simp [reduceClause_nil_eq]
  | [x] => rw [reduceClause_one_eq]; simp only; omega
  | [x, y] => rw [reduceClause_two_eq]; simp only; omega
  | [x, y, z] => rw [reduceClause_three_eq]
  | x :: y :: z :: w :: t =>
    rw [reduceClause_big_eq]
    simp only
    have hrlen : (2:Int) ≤ ((z :: w :: t).length : Int) := by
      simp only [List.length_cons]
      omega
    omega


lemma reduceClause_lits (next : Int) (c : RClause) (hnext : 0 < next)
    (hf : ∀ l ∈ c, l ≠ 0 ∧ |l| < next) :
    ∀ cl ∈ (reduceClause next c).1, ∀ l ∈ cl,
      l ≠ 0 ∧ |l| < (reduceClause next c).2 := by
  match c with
  | [] => intro cl hcl; rw [reduceClause_nil_eq] at hcl; simp at hcl
  | [x] =>
    obtain ⟨hx0, hxlt⟩ := hf x (by simp)
    intro cl hcl l hl
    rw [reduceClause_one_eq] at hcl ⊢
    simp only [List.mem_cons, List.mem_singleton, List.not_mem_nil, or_false] at hcl
    have hn1 : (0:Int) < next + 1 := by omega
    have goalnext : next ≠ 0 ∧ |next| < next + 2 := by
      refine ⟨by omega, ?_⟩; rw [abs_of_pos hnext]; omega
    have goalnextneg : -next ≠ 0 ∧ |(-next)| < next + 2 := by
      refine ⟨by omega, ?_⟩; rw [abs_neg, abs_of_pos hnext]; omega
    have goalsucc : next + 1 ≠ 0 ∧ |next + 1| < next + 2 := by
      refine ⟨by omega, ?_⟩; rw [abs_of_pos hn1]; omega
    have goalsuccneg : -(next + 1) ≠ 0 ∧ |(-(next + 1))| < next + 2 := by
      refine ⟨by omega, ?_⟩; rw [abs_neg, abs_of_pos hn1]; omega
    have goalx : x ≠ 0 ∧ |x| < next + 2 := ⟨hx0, lt_trans hxlt (by omega)⟩
    rcases hcl with rfl | rfl | rfl | rfl <;>
      simp only [List.mem_cons, List.mem_singleton, List.not_mem_nil, or_false] at hl <;>
      rcases hl with rfl | rfl | rfl <;>
      first
        | exact goalx
        | exact goalnext
        | exact goalnextneg
        | exact goalsucc
        | exact goalsuccneg
  | [x, y] =>
    obtain ⟨hx0, hxlt⟩ := hf x (by simp)
    obtain ⟨hy0, hylt⟩ := hf y (by simp)
    intro cl hcl l hl
    rw [reduceClause_two_eq] at hcl ⊢
    simp only [List.mem_cons, List.mem_singleton, List.not_mem_nil, or_false] at hcl
    have goalnext : next ≠ 0 ∧ |next| < next + 1 := by
      refine ⟨by omega, ?_⟩; rw [abs_of_pos hnext]; omega
    have goalnextneg : -next ≠ 0 ∧ |(-next)| < next + 1 := by
      refine ⟨by omega, ?_⟩; rw [abs_neg, abs_of_pos hnext]; omega
    have goalx : x ≠ 0 ∧ |x| < next + 1 := ⟨hx0, lt_trans hxlt (by omega)⟩
    have goaly : y ≠ 0 ∧ |y| < next + 1 := ⟨hy0, lt_trans hylt (by omega)⟩
    rcases hcl with rfl | rfl <;>
      simp only [List.mem_cons, List.mem_singleton, List.not_mem_nil, or_false] at hl <;>
      rcases hl with rfl | rfl | rfl <;>
      first
        | exact goalx
        | exact goaly
        | exact goalnext
        | exact goalnextneg
  | [x, y, z] =>
    intro cl hcl l hl
    rw [reduceClause_three_eq] at hcl ⊢
    simp only [List.mem_singleton] at hcl
    subst hcl
    exact hf l hl
  | x :: y :: z :: w :: t =>
    intro cl hcl l hl
    rw [reduceClause_big_eq] at hcl ⊢
    simp only at hcl ⊢
    have hrlen : (2:Int) ≤ ((z :: w :: t).length : Int) := by
      simp only [List.length_cons]; omega
    rcases List.mem_cons.1 hcl with hhead | htail
    · subst hhead
      simp only [List.mem_cons, List.mem_singleton, List.not_mem_nil, or_false] at hl
      rcases hl with rfl | rfl | rfl
      · obtain ⟨h0, hlt⟩ := hf l (by simp)
        exact ⟨h0, lt_of_lt_of_le hlt (by omega)⟩
      · obtain ⟨h0, hlt⟩ := hf l (by simp)
        exact ⟨h0, lt_of_lt_of_le hlt (by omega)⟩
      · refine ⟨by omega, ?_⟩
        rw [abs_of_pos hnext]
        omega
    · rcases chainRest_lits (z :: w :: t) next hnext cl htail l hl with hmem | ⟨hne, _, hhi⟩
      · obtain ⟨h0, hlt⟩ := hf l (by
          simp only [List.mem_cons] at hmem ⊢
          tauto)
        exact ⟨h0, lt_of_lt_of_le hlt (by omega)⟩
      · exact ⟨hne, lt_of_le_of_lt hhi (by omega)⟩


lemma reduceClause_forward (next : Int) (c : RClause) (A : Int → Bool)
    (hnext : 0 < next) (hf : ∀ l ∈ c, l ≠ 0 ∧ |l| < next)
    (hsat : clauseSat A c = true) :
    ∃ A2 : Int → Bool, (∀ v : Int, v < next → A2 v = A v) ∧
      formulaSat A2 (reduceClause next c).1 = true := by
  match c with
  | [] => simp [clauseSat] at hsat
  | [x] =>
    refine ⟨A, fun v _ => rfl, ?_⟩
    rw [reduceClause_one_eq]
    simp only [clauseSat, List.any_cons, List.any_nil, Bool.or_false] at hsat
    simp only [formulaSat, List.all_cons, List.all_nil, Bool.and_true, Bool.and_eq_true,
      clauseSat, List.any_cons, List.any_nil, Bool.or_false, Bool.or_eq_true]
    exact ⟨Or.inl hsat, Or.inl hsat, Or.inl hsat, Or.inl hsat⟩
  | [x, y] =>
    refine ⟨A, fun v _ => rfl, ?_⟩
    rw [reduceClause_two_eq]
    simp only [clauseSat, List.any_cons, List.any_nil, Bool.or_false,
      Bool.or_eq_true] at hsat
    simp only [formulaSat, List.all_cons, List.all_nil, Bool.and_true, Bool.and_eq_true,
      clauseSat, List.any_cons, List.any_nil, Bool.or_false, Bool.or_eq_true]
    rcases hsat with hx | hy
    · exact ⟨Or.inl hx, Or.inl hx⟩
    · exact ⟨Or.inr (Or.inl hy), Or.inr (Or.inl hy)⟩
  | [x, y, z] =>
    refine ⟨A, fun v _ => rfl, ?_⟩
    rw [reduceClause_three_eq]
    simp only [formulaSat, List.all_cons, List.all_nil, Bool.and_true]
    exact hsat
  | x :: y :: z :: w :: t =>
    rw [reduceClause_big_eq]
    simp only [clauseSat, List.any_cons, Bool.or_eq_true] at hsat
    have hfr : ∀ l ∈ (z :: w :: t), l ≠ 0 ∧ |l| < next := by
      intro l hl
      apply hf
      simp only [List.mem_cons] at hl ⊢
      tauto
    have hb : (!(litSat A x || litSat A y)) = true →
        clauseSat A (z :: w :: t) = true := by
      intro hn
      have hxy : litSat A x = false ∧ litSat A y = false := by
        revert hn; cases litSat A x <;> cases litSat A y <;> simp
      rcases hsat with hx | hy | hrest
      · rw [hx] at hxy; exact absurd hxy.1 (by simp)
      · rw [hy] at hxy; exact absurd hxy.2 (by simp)
      · simp only [clauseSat, List.any_cons, Bool.or_eq_true]
        exact hrest
    obtain ⟨A2, hagree, hA2y, hA2sat⟩ :=
      chainRest_forward (z :: w :: t) next A (!(litSat A x || litSat A y))
        (by simp) hnext hfr hb
    refine ⟨A2, hagree, ?_⟩
    simp only [formulaSat, List.all_cons, Bool.and_eq_true]
    constructor
    · have hfx := hf x (by simp)
      have hfy := hf y (by simp)
      have ex : litSat A2 x = litSat A x :=
        litSat_congr _ _ _ hfx.1 (hagree _ (by have := hfx.2; omega))
      have ey : litSat A2 y = litSat A y :=
        litSat_congr _ _ _ hfy.1 (hagree _ (by have := hfy.2; omega))
      simp only [clauseSat, List.any_cons, List.any_nil, Bool.or_false]
      rw [ex, ey, litSat_pos _ next hnext, hA2y]
      cases hx : litSat A x <;> cases hy : litSat A y <;> simp
    · show formulaSat A2 (chainRest next (z :: w :: t)) = true
      exact hA2sat


lemma reduceClause_backward (next : Int) (c : RClause) (A : Int → Bool)
    (hnext : 0 < next) (hne : c ≠ [])
    (hsat : formulaSat A (reduceClause next c).1 = true) :
    clauseSat A c = true := by
  match c with
  | [] => exact absurd rfl hne
  | [x] =>
    rw [reduceClause_one_eq] at hsat
    simp only [formulaSat, List.all_cons, List.all_nil, Bool.and_true,
      Bool.and_eq_true] at hsat
    obtain ⟨h1, h2, h3, h4⟩ := hsat
    simp only [clauseSat, List.any_cons, List.any_nil, Bool.or_false] at h1 h2 h3 h4 ⊢
    rw [litSat_pos _ next hnext] at h1 h2
    rw [litSat_pos _ (next + 1) (by omega)] at h1 h3
    rw [litSat_neg _ (-next) (by omega), neg_neg] at h3 h4
    rw [litSat_neg _ (-(next + 1)) (by omega), neg_neg] at h2 h4
    cases hy : A next
    · cases hz : A (next + 1)
      · rw [hy, hz] at h1; simpa using h1
      · rw [hy, hz] at h2; simpa using h2
    · cases hz : A (next + 1)
      · rw [hy, hz] at h3; simpa using h3
      · rw [hy, hz] at h4; simpa using h4
  | [x, y] =>
    rw [reduceClause_two_eq] at hsat
    simp only [formulaSat, List.all_cons, List.all_nil, Bool.and_true,
      Bool.and_eq_true] at hsat
    obtain ⟨h1, h2⟩ := hsat
    simp only [clauseSat, List.any_cons, List.any_nil, Bool.or_false] at h1 h2 ⊢
    rw [litSat_pos _ next hnext] at h1
    rw [litSat_neg _ (-next) (by omega), neg_neg] at h2
    cases hy : A next
    · rw [hy] at h1; simpa using h1
    · rw [hy] at h2; simpa using h2
  | [x, y, z] =>
    rw [reduceClause_three_eq] at hsat
    simp only [formulaSat, List.all_cons, List.all_nil, Bool.and_true] at hsat
    exact hsat
  | x :: y :: z :: w :: t =>
    rw [reduceClause_big_eq] at hsat
    simp only [formulaSat, List.all_cons, Bool.and_eq_true] at hsat
    obtain ⟨h1, hchain⟩ := hsat
    simp only [clauseSat, List.any_cons, List.any_nil, Bool.or_false,
      Bool.or_eq_true] at h1 ⊢
    rcases h1 with hx | hy | hnext1
    · exact Or.inl hx
    · exact Or.inr (Or.inl hy)
    · rw [litSat_pos _ next hnext] at hnext1
      have hback := chainRest_backward (z :: w :: t) next A (by simp) hnext
        (by
          show formulaSat A (chainRest next (z :: w :: t)) = true
          simpa [formulaSat] using hchain) hnext1
      simp only [clauseSat, List.any_cons, Bool.or_eq_true] at hback
      exact Or.inr (Or.inr hback)


/-! ### The clause loop: equisatisfiability of the whole reduction -/

lemma reduceClauses_next_mono (cs : List RClause) :
    ∀ next, next ≤ (reduceClauses next cs).2 := by
  induction cs with
  | nil => intro next; simp [reduceClauses]
  | cons c rest ih =>
    intro next
    simp only [reduceClauses]
    exact le_trans (reduceClause_next_mono next c) (ih _)


lemma reduceClauses_forward : ∀ (cs : List RClause) (next : Int) (A : Int → Bool),
    0 < next → (∀ c ∈ cs, ∀ l ∈ c, l ≠ 0 ∧ |l| < next) →
    formulaSat A cs = true →
    ∃ A2 : Int → Bool, (∀ v : Int, v < next → A2 v = A v) ∧
      formulaSat A2 (reduceClauses next cs).1 = true := by
  intro cs
  induction cs with
  | nil => intro next A _ _ _; exact ⟨A, fun v _ => rfl, rfl⟩
  | cons c rest ih =>
    intro next A hnext hf hsat
    simp only [formulaSat, List.all_cons, Bool.and_eq_true] at hsat
    obtain ⟨hsatc, hsatrest⟩ := hsat
    obtain ⟨A1, hA1agree, hA1sat⟩ :=
      reduceClause_forward next c A hnext (hf c (by simp)) hsatc
    have hmono : next ≤ (reduceClause next c).2 := reduceClause_next_mono next c
    have hnext1 : 0 < (reduceClause next c).2 := lt_of_lt_of_le hnext hmono
    have hfrest : ∀ d ∈ rest, ∀ l ∈ d, l ≠ 0 ∧ |l| < (reduceClause next c).2 := by
      intro d hd l hl
      obtain ⟨h0, hlt⟩ := hf d (by simp [hd]) l hl
      exact ⟨h0, lt_of_lt_of_le hlt hmono⟩
    have hsat1 : formulaSat A1 rest = true := by
      rw [formulaSat_congr A1 A rest (fun d hd l hl => by
        obtain ⟨h0, hlt⟩ := hf d (by simp [hd]) l hl
        exact ⟨h0, hA1agree _ hlt⟩)]
      exact hsatrest
    obtain ⟨A2, hA2agree, hA2sat⟩ := ih (reduceClause next c).2 A1 hnext1 hfrest hsat1
    have houtc : formulaSat A2 (reduceClause next c).1 = true := by
      rw [formulaSat_congr A2 A1 _ (fun cl hcl l hl => by
        obtain ⟨h0, hlt⟩ :=
          reduceClause_lits next c hnext (hf c (by simp)) cl hcl l hl
        exact ⟨h0, hA2agree _ hlt⟩)]
      exact hA1sat
    refine ⟨A2, ?_, ?_⟩
    · intro v hv
      rw [hA2agree v (by omega), hA1agree v hv]
    · simp only [reduceClauses]
      rw [formulaSat_append, houtc, hA2sat]
      rfl


lemma reduceClauses_backward : ∀ (cs : List RClause) (next : Int) (A : Int → Bool),
    0 < next → (∀ c ∈ cs, c ≠ []) →
    formulaSat A (reduceClauses next cs).1 = true → formulaSat A cs = true := by
  intro cs
  induction cs with
  | nil => intro next A _ _ _; rfl
  | cons c rest ih =>
    intro next A hnext hne hsat
    simp only [reduceClauses] at hsat
    rw [formulaSat_append, Bool.and_eq_true] at hsat
    obtain ⟨houtc, houtrest⟩ := hsat
    simp only [formulaSat, List.all_cons, Bool.and_eq_true]
    refine ⟨reduceClause_backward next c A hnext (hne c (by simp)) houtc, ?_⟩
    have hnext1 : 0 < (reduceClause next c).2 :=
      lt_of_lt_of_le hnext (reduceClause_next_mono next c)
    have hrest := ih (reduceClause next c).2 A hnext1
      (fun d hd => hne d (by simp [hd])) houtrest
    simpa [formulaSat] using hrest


/-! ### Shape facts: every emitted clause has three literals -/

lemma chainRest_out_len : ∀ (rest : List Int) (y : Int),
    ∀ cl ∈ chainRest y rest, cl.length = 3 := by
  intro rest
  induction rest with
  | nil => intro y cl hcl; simp [chainRest] at hcl
  | cons a tail ih =>
    intro y cl hcl
    match tail with
    | [] => simp [chainRest] at hcl
    | [b] =>
      simp only [chainRest, List.mem_singleton] at hcl
      subst hcl; rfl
    | b :: c2 :: t =>
      have hstep : chainRest y (a :: b :: c2 :: t)
          = [-y, a, y + 1] :: chainRest (y + 1) (b :: c2 :: t) := rfl
      rw [hstep] at hcl
      rcases List.mem_cons.1 hcl with rfl | htail
      · rfl
      · exact ih (y + 1) cl htail


lemma chainRest_length : ∀ (rest : List Int) (y : Int), 2 ≤ rest.length →
    (chainRest y rest).length = rest.length - 1 := by
  intro rest
  induction rest with
  | nil => intro y h; simp at h
  | cons a tail ih =>
    intro y h
    match tail with
    | [] => simp at h
    | [b] => rfl
    | b :: c2 :: t =>
      have hstep : chainRest y (a :: b :: c2 :: t)
          = [-y, a, y + 1] :: chainRest (y + 1) (b :: c2 :: t) := rfl
      rw [hstep, List.length_cons, ih (y + 1) (by simp)]
      simp only [List.length_cons]
      omega


lemma reduceClause_out_len (next : Int) (c : RClause) :
    ∀ cl ∈ (reduceClause next c).1, cl.length = 3 := by
  match c with
  | [] => intro cl hcl; rw [reduceClause_nil_eq] at hcl; simp at hcl
  | [x] =>
    intro cl hcl
    rw [reduceClause_one_eq] at hcl
    simp only [List.mem_cons, List.mem_singleton, List.not_mem_nil, or_false] at hcl
    rcases hcl with rfl | rfl | rfl | rfl <;> rfl
  | [x, y] =>
    intro cl hcl
    rw [reduceClause_two_eq] at hcl
    simp only [List.mem_cons, List.mem_singleton, List.not_mem_nil, or_false] at hcl
    rcases hcl with rfl | rfl <;> rfl
  | [x, y, z] =>
    intro cl hcl
    rw [reduceClause_three_eq] at hcl
    simp only [List.mem_singleton] at hcl
    subst hcl; rfl
  | x :: y :: z :: w :: t =>
    intro cl hcl
    rw [reduceClause_big_eq] at hcl
    simp only at hcl
    rcases List.mem_cons.1 hcl with rfl | htail
    · rfl
    · exact chainRest_out_len (z :: w :: t) next cl htail


lemma reduceClauses_out_len (cs : List RClause) :
    ∀ next, ∀ cl ∈ (reduceClauses next cs).1, cl.length = 3 := by
  induction cs with
  | nil => intro next cl hcl; simp [reduceClauses] at hcl
  | cons c rest ih =>
    intro next cl hcl
    simp only [reduceClauses, List.mem_append] at hcl
    rcases hcl with h | h
    · exact reduceClause_out_len next c cl h
    · exact ih _ cl h


lemma reduceClauses_filter_empty (cs : List RClause) :
    ∀ next, reduceClauses next (cs.filter (fun c => !c.isEmpty))
      = reduceClauses next cs := by
  induction cs with
  | nil => intro next; rfl
  | cons c rest ih =>
    intro next
    match c with
    | [] =>
      show reduceClauses next (rest.filter (fun c => !c.isEmpty))
        = reduceClauses next ([] :: rest)
      rw [ih]
      show reduceClauses next rest
        = ((reduceClause next []).1 ++ (reduceClauses (reduceClause next []).2 rest).1,
           (reduceClauses (reduceClause next []).2 rest).2)
      rw [reduceClause_nil_eq]
      simp
    | x :: xs =>
      show reduceClauses next ((x :: xs) :: rest.filter (fun c => !c.isEmpty))
        = reduceClauses next ((x :: xs) :: rest)
      simp only [reduceClauses]
      rw [ih]


/-! ### Statistics bounds -/

lemma foldl_len_shift (cs : List RClause) : ∀ a : Int,
    cs.foldl (fun acc c => acc + (c.length : Int)) a
      = a + cs.foldl (fun acc c => acc + (c.length : Int)) 0 := by
  induction cs with
  | nil => intro a; simp
  | cons c rest ih =>
    intro a
    simp only [List.foldl_cons]
    rw [ih (a + (c.length : Int)), ih ((0:Int) + (c.length : Int))]
    ring


lemma reduceClause_bounds (next : Int) (c : RClause) :
    (reduceClause next c).2 - next ≤ 2 * (c.length : Int)
    ∧ ((reduceClause next c).1.length : Int) ≤ 4 * (c.length : Int) := by
  match c with
  | [] => rw [reduceClause_nil_eq]; constructor <;> simp
  | [x] => rw [reduceClause_one_eq]; constructor <;> simp
  | [x, y] =>
    rw [reduceClause_two_eq]
    constructor <;> simp <;> omega
  | [x, y, z] =>
    rw [reduceClause_three_eq]
    constructor <;> simp
  | x :: y :: z :: w :: t =>
    rw [reduceClause_big_eq]
    have hlen := chainRest_length (z :: w :: t) next (by simp)
    constructor
    · simp only [List.length_cons]
      push_cast
      omega
    · simp only [List.length_cons, hlen]
      push_cast
      omega


lemma reduceClauses_bounds (cs : List RClause) : ∀ next : Int,
    (reduceClauses next cs).2 - next
        ≤ 2 * (cs.foldl (fun acc c => acc + (c.length : Int)) 0)
    ∧ ((reduceClauses next cs).1.length : Int)
        ≤ 4 * (cs.foldl (fun acc c => acc + (c.length : Int)) 0) := by
  induction cs with
  | nil => intro next; simp [reduceClauses]
  | cons c rest ih =>
    intro next
    obtain ⟨hc1, hc2⟩ := reduceClause_bounds next c
    obtain ⟨hr1, hr2⟩ := ih (reduceClause next c).2
    have hfold : (c :: rest).foldl (fun acc c => acc + (c.length : Int)) 0
        = (c.length : Int) + rest.foldl (fun acc c => acc + (c.length : Int)) 0 := by
      simp only [List.foldl_cons]
      rw [foldl_len_shift rest ((0:Int) + (c.length : Int))]
      ring
    simp only [reduceClauses]
    rw [hfold]
    constructor
    · linarith
    · have happ : (((reduceClause next c).1
          ++ (reduceClauses (reduceClause next c).2 rest).1).length : Int)
          = ((reduceClause next c).1.length : Int)
            + ((reduceClauses (reduceClause next c).2 rest).1.length : Int) := by
        rw [List.length_append]
        push_cast
        ring
      rw [happ]
      linarith

end Red

/-! ## Claim theorems about the SAT → 3-SAT reducer -/

/-- Claim C2 (amended): for every input formula whose clauses are all
non-empty, with non-zero literals over variables `1..N`, the reduction is
equisatisfiable with the original, and every assignment satisfying the
reduction restricts (on the original variables `1..N`) to one satisfying
the original.  The amendment excludes empty clauses: the reducer drops
them (`continue` in `reduce`), so a formula containing an empty clause is
unsatisfiable while its reduction need not be — see the counterexample. -/
theorem C2_equisat_amended (F : Red.CNFFormula) (hN : 0 ≤ F.numVars)
    (hwf : ∀ c ∈ F.clauses, c ≠ [] ∧ ∀ l ∈ c, l ≠ 0 ∧ |l| ≤ F.numVars) :
    ((∃ A : Int → Bool, Red.formulaSat A F.clauses = true)
      ↔ (∃ A : Int → Bool, Red.formulaSat A (Red.reduce F).1.clauses = true))
    ∧ (∀ A : Int → Bool, Red.formulaSat A (Red.reduce F).1.clauses = true →
        Red.formulaSat (Red.restrict F.numVars A) F.clauses = true) := by
  have hred : (Red.reduce F).1.clauses
      = (Red.reduceClauses (F.numVars + 1) F.clauses).1 := rfl
  have hnext : (0:Int) < F.numVars + 1 := by omega
  have hfr : ∀ c ∈ F.clauses, ∀ l ∈ c, l ≠ 0 ∧ |l| < F.numVars + 1 := by
    intro c hc l hl
    obtain ⟨h0, hle⟩ := (hwf c hc).2 l hl
    exact ⟨h0, by omega⟩
  have hback : ∀ A : Int → Bool,
      Red.formulaSat A (Red.reduce F).1.clauses = true →
      Red.formulaSat A F.clauses = true := by
    intro A hA
    rw [hred] at hA
    exact Red.reduceClauses_backward F.clauses (F.numVars + 1) A hnext
      (fun c hc => (hwf c hc).1) hA
  constructor
  · constructor
    · rintro ⟨A, hA⟩
      obtain ⟨A2, _, hA2⟩ :=
        Red.reduceClauses_forward F.clauses (F.numVars + 1) A hnext hfr hA
      exact ⟨A2, by rw [hred]; exact hA2⟩
    · rintro ⟨A, hA⟩
      exact ⟨A, hback A hA⟩
  · intro A hA
    have hFA := hback A hA
    rw [Red.formulaSat_congr (Red.restrict F.numVars A) A F.clauses
      (fun c hc l hl => by
        obtain ⟨h0, hle⟩ := (hwf c hc).2 l hl
        refine ⟨h0, ?_⟩
        unfold Red.restrict
        rw [if_pos hle])]
    exact hFA


/-- Witness for C2: the amended theorem applied to the concrete formula
`p cnf 1 1` / `1 0`. -/
theorem C2_witness :
    ((0:Int) ≤ Red.F1unit.numVars
      ∧ (∀ c ∈ Red.F1unit.clauses, c ≠ [] ∧ ∀ l ∈ c, l ≠ 0 ∧ |l| ≤ Red.F1unit.numVars))
    ∧ (((∃ A : Int → Bool, Red.formulaSat A Red.F1unit.clauses = true)
        ↔ (∃ A : Int → Bool, Red.formulaSat A (Red.reduce Red.F1unit).1.clauses = true))
      ∧ (∀ A : Int → Bool, Red.formulaSat A (Red.reduce Red.F1unit).1.clauses = true →
          Red.formulaSat (Red.restrict Red.F1unit.numVars A) Red.F1unit.clauses = true)) :=
  ⟨⟨by decide, by decide⟩, C2_equisat_amended Red.F1unit (by decide) (by decide)⟩


/-- Counterexample to C2 as stated: the formula `F0empty` consists of a
single empty clause, hence is unsatisfiable; the reducer drops the empty
clause, so its output is satisfied by every assignment — in particular the
all-false assignment satisfies the reduction while its restriction does not
satisfy the original. -/
theorem C2_counterexample :
    Red.formulaSat (fun _ => false) ((Red.reduce Red.F0empty).1.clauses) = true
    ∧ Red.formulaSat (Red.restrict Red.F0empty.numVars (fun _ => false))
        Red.F0empty.clauses = false :=
  ⟨rfl, rfl⟩


/-- Claim C3: the per-size reduction rules.  A size-1 clause becomes the
four clauses over two fresh variables, a size-2 clause becomes two clauses
over one fresh variable, a size-3 clause passes through, a size-`k ≥ 4`
clause becomes the `k-2` chain clauses over `k-3` fresh variables minted
consecutively from `nextAuxVar`, and the single clause `1 2 3 4 5` with
`N = 5` reduces to exactly `1 2 6`, `-6 3 7`, `-7 4 5` with seven
variables in total. -/
theorem C3_per_size_rules :
    (∀ next x : Int, Red.reduceClause next [x]
        = ([[x, next, next + 1], [x, next, -(next + 1)],
            [x, -next, next + 1], [x, -next, -(next + 1)]], next + 2))
    ∧ (∀ next x y : Int, Red.reduceClause next [x, y]
        = ([[x, y, next], [x, y, -next]], next + 1))
    ∧ (∀ next x y z : Int, Red.reduceClause next [x, y, z] = ([[x, y, z]], next))
    ∧ (∀ (next : Int) (c : Red.RClause), 4 ≤ c.length →
        (Red.reduceClause next c).1
          = ([c.getD 0 0, c.getD 1 0, next] ::
              (List.range (c.length - 4)).map
                (fun i : Nat =>
                  [-(next + (i : Int)), c.getD (i + 2) 0, next + (i : Int) + 1]))
            ++ [[-(next + ((c.length - 4 : Nat) : Int)), c.getD (c.length - 2) 0,
                 c.getD (c.length - 1) 0]]
          ∧ (Red.reduceClause next c).2 = next + (c.length : Int) - 3
          ∧ (Red.reduceClause next c).1.length = c.length - 2
          ∧ ∀ cl ∈ (Red.reduceClause next c).1, cl.length = 3)
    ∧ (Red.reduce ⟨5, 1, [[1, 2, 3, 4, 5]]⟩).1
        = ⟨7, 3, [[1, 2, 6], [-6, 3, 7], [-7, 4, 5]]⟩ := by
  refine ⟨Red.reduceClause_one_eq, Red.reduceClause_two_eq,
    Red.reduceClause_three_eq, ?_, by decide⟩
  intro next c hc
  match c, hc with
  | x :: y :: z :: w :: t, hc =>
    have hr2 : 2 ≤ (z :: w :: t).length := by simp
    have e4 : (x :: y :: z :: w :: t).length - 4 = (z :: w :: t).length - 2 := by
      simp only [List.length_cons]; omega
    refine ⟨?_, ?_, ?_, ?_⟩
    · rw [Red.reduceClause_big_eq, Red.chainRest_closed_form (z :: w :: t) next hr2]
      simp only [List.cons_append]
      rw [List.cons_eq_cons]
      refine ⟨rfl, ?_⟩
      rw [e4]
      refine congrArg₂ (· ++ ·) ?_ ?_
      · apply List.map_congr_left
        intro i _
        rfl
      · have g2 : (x :: y :: z :: w :: t).getD ((x :: y :: z :: w :: t).length - 2) 0
            = (z :: w :: t).getD ((z :: w :: t).length - 2) 0 := by
          simp only [List.length_cons]
          have harith : t.length + 1 + 1 + 1 + 1 - 2 = (t.length + 1 + 1 - 2) + 1 + 1 := by
            omega
          rw [harith]
          simp only [List.getD_cons_succ]
        have g3 : (x :: y :: z :: w :: t).getD ((x :: y :: z :: w :: t).length - 1) 0
            = (z :: w :: t).getD ((z :: w :: t).length - 1) 0 := by
          simp only [List.length_cons]
          have harith : t.length + 1 + 1 + 1 + 1 - 1 = (t.length + 1 + 1 - 1) + 1 + 1 := by
            omega
          rw [harith]
          simp only [List.getD_cons_succ]
        rw [g2, g3]
    · rw [Red.reduceClause_big_eq]
      simp only [List.length_cons]
      push_cast
      ring
    · rw [Red.reduceClause_big_eq]
      simp only [List.length_cons,
        Red.chainRest_length (z :: w :: t) next hr2]
      omega
    · intro cl hcl
      exact Red.reduceClause_out_len next _ cl hcl


/-- Witness for C3: the chain rule applied to the concrete clause
`1 2 3 4 5` with `nextAuxVar = 6`. -/
theorem C3_witness :
    4 ≤ ([1, 2, 3, 4, 5] : Red.RClause).length
    ∧ (Red.reduceClause 6 [1, 2, 3, 4, 5]).1
        = [[1, 2, 6], [-6, 3, 7], [-7, 4, 5]] := by
  refine ⟨by decide, ?_⟩
  have h := (C3_per_size_rules.2.2.2.1 6 [1, 2, 3, 4, 5] (by decide)).1
  rw [h]
  decide


/-- Claim C7 (amended): the reducer drops every empty clause from its
output (reducing a formula is the same as reducing it with the empty
clauses filtered away), and every clause it does emit has exactly three
literals.  The original claim said empty clauses are preserved; they are
not — see the counterexample. -/
theorem C7_amended (F : Red.CNFFormula) :
    (∀ cl ∈ (Red.reduce F).1.clauses, cl.length = 3)
    ∧ (Red.reduce { F with
          clauses := F.clauses.filter (fun c => !c.isEmpty) }).1.clauses
        = (Red.reduce F).1.clauses := by
  constructor
  · intro cl hcl
    exact Red.reduceClauses_out_len F.clauses (F.numVars + 1) cl hcl
  · show (Red.reduceClauses (F.numVars + 1)
        (F.clauses.filter (fun c => !c.isEmpty))).1
      = (Red.reduceClauses (F.numVars + 1) F.clauses).1
    rw [Red.reduceClauses_filter_empty F.clauses (F.numVars + 1)]


/-- Counterexample to C7 as stated: `F0empty` contains one empty clause,
but the reducer's output contains no clause at all — the empty clause is
not preserved. -/
theorem C7_counterexample :
    Red.F0empty.clauses = [[]] ∧ (Red.reduce Red.F0empty).1.clauses = [] :=
  ⟨rfl, rfl⟩


/-- Claim C8 (amended): with `L` the total number of literals of the input,
the reduction statistics satisfy `ReducedVars - OriginalVars ≤ 2L` and
`ReducedClauses ≤ 4L`.  The bounds `≤ L` of the original claim fail on a
unit clause, which mints two auxiliaries and four clauses from a single
literal — see the counterexample. -/
theorem C8_amended (F : Red.CNFFormula) :
    (Red.reduce F).2.reducedVars - (Red.reduce F).2.originalVars
        ≤ 2 * (Red.reduce F).2.totalLiteralsOriginal
    ∧ (Red.reduce F).2.reducedClauses
        ≤ 4 * (Red.reduce F).2.totalLiteralsOriginal := by
  have h1 : (Red.reduce F).2.reducedVars
      = (Red.reduceClauses (F.numVars + 1) F.clauses).2 - 1 := rfl
  have h2 : (Red.reduce F).2.originalVars = F.numVars := rfl
  have h3 : (Red.reduce F).2.reducedClauses
      = ((Red.reduceClauses (F.numVars + 1) F.clauses).1.length : Int) := rfl
  have h4 : (Red.reduce F).2.totalLiteralsOriginal
      = F.clauses.foldl (fun acc c => acc + (c.length : Int)) 0 := rfl
  obtain ⟨b1, b2⟩ := Red.reduceClauses_bounds F.clauses (F.numVars + 1)
  constructor
  · rw [h1, h2, h4]
    linarith
  · rw [h3, h4]
    linarith


/-- Counterexample to C8 as stated: on the single unit clause `(1)` the
input has `L = 1` literal, but the reduction adds two auxiliary variables
and emits four clauses, so neither `ReducedVars - OriginalVars ≤ L` nor
`ReducedClauses ≤ L` holds. -/
theorem C8_counterexample :
    (Red.reduce Red.F1unit).2.totalLiteralsOriginal = 1
    ∧ ¬((Red.reduce Red.F1unit).2.reducedVars
          - (Red.reduce Red.F1unit).2.originalVars ≤ 1
        ∧ (Red.reduce Red.F1unit).2.reducedClauses ≤ 1) := by
  decide

namespace Verif


lemma falsIdxsFrom_eq_nil (asg : List Int) : ∀ (cs : List VClause) (i : Nat),
    falsIdxsFrom asg i cs = [] ↔ ∀ c ∈ cs, isSatisfied c asg = true := by
  intro cs
  induction cs with
  | nil => intro i; simp [falsIdxsFrom]
  | cons c rest ih =>
    intro i
    simp only [falsIdxsFrom]
    by_cases hc : isSatisfied c asg = true
    · rw [if_pos hc, ih (i + 1)]
      constructor
      · intro h d hd
        rcases List.mem_cons.1 hd with rfl | hd2
        · exact hc
        · exact h d hd2
      · intro h d hd
        exact h d (by simp [hd])
    · rw [if_neg hc]
      constructor
      · intro h; cases h
      · intro h
        exact absurd (h c (by simp)) hc


lemma verifyLoop_spec (asg : List Int) : ∀ (cs : List VClause)
    (i satC unsatC : Nat) (idxs : List Nat), idxs.length ≤ 10 →
    (verifyLoop asg cs i satC unsatC idxs).2
        = idxs ++ (falsIdxsFrom asg i cs).take (11 - idxs.length)
    ∧ (verifyLoop asg cs i satC unsatC idxs).1
        = unsatC + min (falsIdxsFrom asg i cs).length (11 - idxs.length) := by
  intro cs
  induction cs with
  | nil =>
    intro i satC unsatC idxs _
    simp [verifyLoop, falsIdxsFrom]
  | cons c rest ih =>
    intro i satC unsatC idxs hlen
    simp only [verifyLoop, falsIdxsFrom]
    by_cases hc : isSatisfied c asg = true
    · rw [if_pos hc, if_pos hc]
      exact ih (i + 1) (satC + 1) unsatC idxs hlen
    · rw [if_neg hc, if_neg hc]
      by_cases hover : (idxs ++ [i]).length > 10
      · rw [if_pos hover]
        have h10 : idxs.length = 10 := by
          simp only [List.length_append, List.length_cons, List.length_nil] at hover
          omega
        constructor
        · simp only [h10]
          have h1 : (11 - 10 : Nat) = 1 := by omega
          rw [h1]
          have ht : List.take 1 (i :: falsIdxsFrom asg (i + 1) rest) = [i] := rfl
          rw [ht]
        · simp only [h10]
          have h1 : 11 - 10 = 1 := by omega
          rw [h1]
          simp only [List.length_cons]
          omega
      · rw [if_neg hover]
        have hlen2 : (idxs ++ [i]).length ≤ 10 := by
          simp only [List.length_append, List.length_cons, List.length_nil] at hover ⊢
          omega
        obtain ⟨ha, hb⟩ := ih (i + 1) satC (unsatC + 1) (idxs ++ [i]) hlen2
        have hlt : idxs.length ≤ 9 := by
          simp only [List.length_append, List.length_cons, List.length_nil] at hover
          omega
        constructor
        · rw [ha]
          simp only [List.length_append, List.length_cons, List.length_nil,
            List.append_assoc, List.singleton_append, Nat.zero_add]
          have harith : 11 - idxs.length = (11 - (idxs.length + 1)) + 1 := by omega
          rw [harith, List.take_succ_cons]
        · rw [hb]
          simp only [List.length_append, List.length_cons, List.length_nil]
          omega

end Verif

/-! ## Claim theorems about the verifier -/

/-- Claim C9 (amended): the verifier returns a false verdict exactly when
some clause has no true literal (unset literals never count as true), and
the diagnostic list it collects consists of the indices of the first
falsified clauses in clause order, at most 11 of them.  The bound of the
original claim was 10; the loop pushes an index and only then tests
`size() > 10`, so an eleventh index can be collected — see the
counterexample. -/
theorem C9_amended (inst : Verif.CNFInstance) (sol : Verif.Solution) :
    ((Verif.verify inst sol).1 = false
      ↔ ∃ c ∈ inst.clauses, Verif.isSatisfied c sol.assignment = false)
    ∧ (Verif.verify inst sol).2
        = (Verif.falsIdxsFrom sol.assignment 0 inst.clauses).take 11
    ∧ (Verif.verify inst sol).2.length ≤ 11 := by
  by_cases hempty : inst.clauses.isEmpty
  · have h1 : Verif.verify inst sol = (true, []) := by
      unfold Verif.verify
      rw [if_pos hempty]
    rw [h1]
    have hnil : inst.clauses = [] := by
      cases h : inst.clauses
      · rfl
      · rw [h] at hempty; simp [List.isEmpty] at hempty
    rw [hnil]
    simp [Verif.falsIdxsFrom]
  · have h1 : Verif.verify inst sol
        = (((Verif.verifyLoop sol.assignment inst.clauses 0 0 0 []).1 == 0),
           (Verif.verifyLoop sol.assignment inst.clauses 0 0 0 []).2) := by
      unfold Verif.verify
      rw [if_neg hempty]
    obtain ⟨ha, hb⟩ :=
      Verif.verifyLoop_spec sol.assignment inst.clauses 0 0 0 [] (by simp)
    rw [h1]
    simp only [List.nil_append, List.length_nil, Nat.sub_zero] at ha hb
    refine ⟨?_, ha, ?_⟩
    · rw [hb]
      simp only [Nat.zero_add, beq_eq_false_iff_ne, ne_eq]
      constructor
      · intro h
        by_contra hno
        push_neg at hno
        have hall : ∀ c ∈ inst.clauses, Verif.isSatisfied c sol.assignment = true := by
          intro c hc
          have hx := hno c hc
          revert hx
          cases Verif.isSatisfied c sol.assignment <;> simp
        have hnil := (Verif.falsIdxsFrom_eq_nil sol.assignment inst.clauses 0).2 hall
        apply h
        rw [hnil]
        simp
      · rintro ⟨c, hc, hcf⟩ h0
        have hflen : (Verif.falsIdxsFrom sol.assignment 0 inst.clauses).length = 0 := by
          omega
        have hnil := List.length_eq_zero.1 hflen
        have hsat := (Verif.falsIdxsFrom_eq_nil sol.assignment inst.clauses 0).1 hnil c hc
        rw [hcf] at hsat
        cases hsat
    · rw [ha]
      simp [List.length_take]

/-- Counterexample to C9 as stated: on twelve falsified clauses the
verifier's diagnostic list holds eleven indices, not at most ten — the
loop pushes the eleventh index before testing `size() > 10`. -/
theorem C9_counterexample :
    (Verif.verify inst12 sol1false).1 = false
    ∧ (Verif.verify inst12 sol1false).2 = [0, 1, 2, 3, 4, 5, 6, 7, 8, 9, 10]
    ∧ (Verif.verify inst12 sol1false).2.length = 11 := by
  decide


/-- Claim C10: clause evaluation is total over out-of-range variable
indices.  A literal whose variable is at or beyond the length of the
assignment vector never makes its clause true (it is treated as unset),
a clause all of whose literals are out of range is unsatisfied, and
`Solution::setLiteral` leaves the assignment unchanged when the variable
is out of range — so verification always produces a verdict. -/
theorem C10_total_eval :
    (∀ (asg : List Int) (lit : Int), (asg.length : Int) ≤ |lit| →
        Verif.litTrue asg lit = false)
    ∧ (∀ (asg : List Int) (lits : Verif.VClause),
        (∀ l ∈ lits, (asg.length : Int) ≤ |l|) →
        Verif.isSatisfied lits asg = false)
    ∧ (∀ (sol : Verif.Solution) (lit : Int),
        (sol.assignment.length : Int) ≤ |lit| →
        Verif.Solution.setLiteral sol lit = sol) := by
  have hlit : ∀ (asg : List Int) (lit : Int), (asg.length : Int) ≤ |lit| →
      Verif.litTrue asg lit = false := by
    intro asg lit hle
    unfold Verif.litTrue
    rw [if_neg]
    intro hcon
    omega
  refine ⟨hlit, ?_, ?_⟩
  · intro asg lits hall
    unfold Verif.isSatisfied
    rw [List.any_eq_false]
    intro l hl
    rw [hlit asg l (hall l hl)]
    simp
  · intro sol lit hle
    unfold Verif.Solution.setLiteral
    rw [if_neg]
    intro hcon
    omega


/-- Witness for C10 at concrete inputs: the assignment vector `[-1, 0]`
(one declared variable) treats literal `5` as unset, the clause `5 -7`
is unsatisfied, and setting literal `7` leaves the parsed solution
unchanged. -/
theorem C10_witness :
    ((([-1, 0] : List Int).length : Int) ≤ |(5 : Int)|
      ∧ Verif.litTrue [-1, 0] 5 = false)
    ∧ ((∀ l ∈ ([5, -7] : Verif.VClause), (([-1, 0] : List Int).length : Int) ≤ |l|)
      ∧ Verif.isSatisfied [5, -7] [-1, 0] = false)
    ∧ (((Verif.Solution.mk [-1, 0] 1).assignment.length : Int) ≤ |(7 : Int)|
      ∧ Verif.Solution.setLiteral ⟨[-1, 0], 1⟩ 7 = ⟨[-1, 0], 1⟩) :=
  ⟨⟨by decide, C10_total_eval.1 [-1, 0] 5 (by decide)⟩,
   ⟨by decide, C10_total_eval.2.1 [-1, 0] [5, -7] (by decide)⟩,
   ⟨by decide, C10_total_eval.2.2 ⟨[-1, 0], 1⟩ 7 (by decide)⟩⟩

/-! ## Trail shape of `backtrackTo` (both variants) -/

lemma Opt.backtrackLoop_trail : ∀ (fuel : Nat) (a : Opt.Assignment) (k : Nat),
    a.trail.length ≤ fuel →
    (Opt.Assignment.backtrackLoop fuel a k).trail = a.trail.take k := by
  intro fuel
  induction fuel with
  | zero =>
    intro a k hle
    have hnil : a.trail = [] := List.eq_nil_of_length_eq_zero (by omega)
    simp [Opt.Assignment.backtrackLoop, hnil]
  | succ fuel ih =>
    intro a k hle
    by_cases hk : k < a.trail.length
    · have hstep : Opt.Assignment.backtrackLoop (fuel + 1) a k
          = if k < a.trail.length then Opt.Assignment.backtrackLoop fuel a.popBack k
            else a := rfl
      rw [hstep, if_pos hk, ih a.popBack k (by
        show a.trail.dropLast.length ≤ fuel
        rw [List.length_dropLast]
        omega)]
      show a.trail.dropLast.take k = a.trail.take k
      rw [List.dropLast_eq_take, List.take_take]
      have : min k (a.trail.length - 1) = k := by omega
      rw [this]
    · have hstep : Opt.Assignment.backtrackLoop (fuel + 1) a k
          = if k < a.trail.length then Opt.Assignment.backtrackLoop fuel a.popBack k
            else a := rfl
      rw [hstep, if_neg hk, List.take_of_length_le (by omega)]


lemma Opt.backtrackTo_trail (a : Opt.Assignment) (k : Nat) :
    (a.backtrackTo k).trail = a.trail.take k :=
  Opt.backtrackLoop_trail a.trail.length a k le_rfl


lemma Opt2.backtrackLoop_trail2 : ∀ (fuel : Nat) (a : Opt2.Assignment) (k : Nat),
    a.trail.length ≤ fuel →
    (Opt2.Assignment.backtrackLoop fuel a k).trail = a.trail.take k := by
  intro fuel
  induction fuel with
  | zero =>
    intro a k hle
    have hnil : a.trail = [] := List.eq_nil_of_length_eq_zero (by omega)
    simp [Opt2.Assignment.backtrackLoop, hnil]
  | succ fuel ih =>
    intro a k hle
    by_cases hk : k < a.trail.length
    · have hstep : Opt2.Assignment.backtrackLoop (fuel + 1) a k
          = if k < a.trail.length then Opt2.Assignment.backtrackLoop fuel a.popBack k
            else a := rfl
      rw [hstep, if_pos hk, ih a.popBack k (by
        show a.trail.dropLast.length ≤ fuel
        rw [List.length_dropLast]
        omega)]
      show a.trail.dropLast.take k = a.trail.take k
      rw [List.dropLast_eq_take, List.take_take]
      have : min k (a.trail.length - 1) = k := by omega
      rw [this]
    · have hstep : Opt2.Assignment.backtrackLoop (fuel + 1) a k
          = if k < a.trail.length then Opt2.Assignment.backtrackLoop fuel a.popBack k
            else a := rfl
      rw [hstep, if_neg hk, List.take_of_length_le (by omega)]


lemma Opt2.backtrackTo_trail2 (a : Opt2.Assignment) (k : Nat) :
    (a.backtrackTo k).trail = a.trail.take k :=
  Opt2.backtrackLoop_trail2 a.trail.length a k le_rfl


/-! ## Characterizing one solver-loop iteration by the propagation result -/

lemma Opt.step_conflict (slv : Opt.Solver) (s : Opt.SolverState) (ps : Opt.PropState)
    (hdec : s.decisions < Opt.maxDecisions1)
    (hprop : Opt.propagate slv s.assignment s.activity s.varInc = some ps)
    (hconf : ps.conflict = true) :
    Opt.step slv s
      = (if ps.assignment.trail.length ≤ 1 then .done (false, ps.assignment)
         else
          let a2 := ps.assignment.backtrackTo (ps.assignment.trail.length / 2)
          let vi2 := if (s.conflicts + 1) % 50 = 0 then ps.varInc / varDecay
            else ps.varInc
          if 100 < s.conflicts + 1 then
            .next ⟨a2.backtrackTo 0, ps.activity, vi2, 0, s.decisions + 1⟩
          else
            .next ⟨a2, ps.activity, vi2, s.conflicts + 1, s.decisions + 1⟩) := by
  unfold Opt.step
  rw [if_neg (by omega), hprop]
  simp only [hconf, if_true]


lemma Opt.step_noconflict (slv : Opt.Solver) (s : Opt.SolverState) (ps : Opt.PropState)
    (hdec : s.decisions < Opt.maxDecisions1)
    (hprop : Opt.propagate slv s.assignment s.activity s.varInc = some ps)
    (hconf : ps.conflict = false) :
    Opt.step slv s
      = (if ps.assignment.trail.length = slv.numVars.toNat
            ∧ Opt.allSatisfied slv.clauses ps.assignment then
          .done (true, ps.assignment)
         else
          let var0 := Opt.selectVariable slv.numVars ps.assignment ps.activity
          let var := if var0 = -1 then Opt.firstUnassigned slv.numVars ps.assignment
            else var0
          if var = -1 then
            .done (decide (ps.assignment.trail.length = slv.numVars.toNat),
              ps.assignment)
          else
            .next ⟨ps.assignment.assign var
                (if (s.decisions + 1) % 3 = 0 then false else true),
              ps.activity, ps.varInc, s.conflicts, s.decisions + 1⟩) := by
  unfold Opt.step
  rw [if_neg (by omega), hprop]
  simp only [hconf, Bool.false_eq_true, if_false]


lemma Opt.step_timeout (slv : Opt.Solver) (s : Opt.SolverState)
    (hdec : s.decisions < Opt.maxDecisions1)
    (hprop : Opt.propagate slv s.assignment s.activity s.varInc = none) :
    Opt.step slv s = .timeout := by
  unfold Opt.step
  rw [if_neg (by omega), hprop]


lemma Opt2.step_conflict2 (slv : Opt2.Solver2) (s : Opt2.SolverState2)
    (ps : Opt2.UPState)
    (hdec : s.decisions < Opt2.maxDecisions2)
    (hprop : Opt2.upLoop slv.clauses slv.propFuel s.assignment s.activity s.varInc
      = some ps)
    (hconf : ps.conflict = true) :
    Opt2.step slv s
      = (if ps.assignment.trail.length ≤ 1 then .done (false, ps.assignment)
         else
          let a2 := ps.assignment.backtrackTo
            ((max 0 ((ps.assignment.trail.length : Int) - 5)).toNat)
          let vi2 := if (s.conflicts + 1) % 100 = 0 then ps.varInc / varDecay
            else ps.varInc
          if 200 * (1 + (s.conflicts + 1) / 1000) < s.conflicts + 1 then
            .next ⟨a2.backtrackTo 0, ps.activity, vi2, 0, s.decisions + 1⟩
          else
            .next ⟨a2, ps.activity, vi2, s.conflicts + 1, s.decisions + 1⟩) := by
  unfold Opt2.step
  rw [if_neg (by omega), hprop]
  simp only [hconf, if_true]


lemma Opt2.step_noconflict2 (slv : Opt2.Solver2) (s : Opt2.SolverState2)
    (ps : Opt2.UPState)
    (hdec : s.decisions < Opt2.maxDecisions2)
    (hprop : Opt2.upLoop slv.clauses slv.propFuel s.assignment s.activity s.varInc
      = some ps)
    (hconf : ps.conflict = false) :
    Opt2.step slv s
      = (if ps.assignment.trail.length = slv.numVars.toNat then
          (if ps.assignment.verifySolution slv.clauses then .done (true, ps.assignment)
           else if 0 < ps.assignment.trail.length then
            .next ⟨ps.assignment.backtrackTo (ps.assignment.trail.length / 2),
              ps.activity, ps.varInc, s.conflicts, s.decisions + 1⟩
           else .done (false, ps.assignment))
         else
          let var0 := Opt2.selectVariable slv.numVars ps.assignment ps.activity
          let var := if var0 = -1 then Opt2.firstUnassigned slv.numVars ps.assignment
            else var0
          if var = -1 then
            (if ps.assignment.verifySolution slv.clauses then .done (true, ps.assignment)
             else .done (false, ps.assignment))
          else
            .next ⟨ps.assignment.assign var (decide ((s.decisions + 1) % 2 = 0)),
              ps.activity, ps.varInc, s.conflicts, s.decisions + 1⟩) := by
  unfold Opt2.step
  rw [if_neg (by omega), hprop]
  simp only [hconf, Bool.false_eq_true, if_false]

/-- Claim C1 (code bug witnessed): on the single clause `(-1∨-2∨3∨-4)`
the watched-literal `FastCDCLSolver::solve` returns SAT with the
assignment `x1=T, x2=T, x3=F, x4=T`, yet that assignment falsifies the
clause — both the solver file's own clause-by-clause check and the
separate verifier reject it.  (The decision sequence assigns the
literals' complements; no unit propagation fires because the clause is
only rescanned when one of its two watched literals is falsified, and
the totality check's `allSat = false` result is then discarded by the
fall-through `return {assignment.size() == numVars, assignment}`.) -/
theorem C1_cdcl_unverified_sat :
    Opt.solve C1slv 10
      = some (true, ⟨[-1, 1, 1, 0, 1], [1, 2, 3, 4]⟩)
    ∧ Opt.allSatisfied C1cls ⟨[-1, 1, 1, 0, 1], [1, 2, 3, 4]⟩ = false
    ∧ (Verif.verify ⟨4, 1, [[-1, -2, 3, -4]]⟩ ⟨[-1, 1, 1, 0, 1], 4⟩).1 = false := by
  refine ⟨by decide, by decide, by decide⟩


/-- Counterexample to C4 as stated: at the reachable state `C4s2` the
re-scan variant's propagation reports a conflict with trail length 4,
and the following backtrack leaves a trail of length 0 — not
`⌊4/2⌋ = 2` as claimed (the code pops to `max(0, size - 5)`). -/
theorem C4_counterexample :
    (Opt2.upLoop C4slv.clauses C4slv.propFuel C4s2.assignment C4s2.activity
        C4s2.varInc).map (fun ps => (ps.conflict, ps.assignment.trail.length))
      = some (true, 4)
    ∧ Opt2.stepTrailLen C4slv C4s2 = some 0
    ∧ (0 : Nat) ≠ 4 / 2 := by
  refine ⟨by decide, by decide, by decide⟩


/-- Claim C4 (amended): when propagation reports a conflict and the trail
length is at most 1, both CDCL variants return UNSAT and halt.  On a
conflict with trail length ≥ 2 the watched-literal variant pops the trail
to exactly `⌊len/2⌋` and the re-scan variant to `max(0, len - 5)`; in
either variant a restart triggered by the conflict counter instead
unwinds the trail to length 0 before the loop continues. -/
theorem C4_amended :
    (∀ (slv : Opt.Solver) (s : Opt.SolverState) (ps : Opt.PropState),
      s.decisions < Opt.maxDecisions1 →
      Opt.propagate slv s.assignment s.activity s.varInc = some ps →
      ps.conflict = true →
      (ps.assignment.trail.length ≤ 1 →
        Opt.step slv s = .done (false, ps.assignment))
      ∧ (2 ≤ ps.assignment.trail.length →
        ∃ s2, Opt.step slv s = .next s2
          ∧ s2.assignment.trail =
              (if 100 < s.conflicts + 1 then ([] : List Int)
               else ps.assignment.trail.take (ps.assignment.trail.length / 2))))
    ∧ (∀ (slv : Opt2.Solver2) (s : Opt2.SolverState2) (ps : Opt2.UPState),
      s.decisions < Opt2.maxDecisions2 →
      Opt2.upLoop slv.clauses slv.propFuel s.assignment s.activity s.varInc
        = some ps →
      ps.conflict = true →
      (ps.assignment.trail.length ≤ 1 →
        Opt2.step slv s = .done (false, ps.assignment))
      ∧ (2 ≤ ps.assignment.trail.length →
        ∃ s2, Opt2.step slv s = .next s2
          ∧ s2.assignment.trail =
              (if 200 * (1 + (s.conflicts + 1) / 1000) < s.conflicts + 1
               then ([] : List Int)
               else ps.assignment.trail.take
                   ((max 0 ((ps.assignment.trail.length : Int) - 5)).toNat)))) := by
  constructor
  · intro slv s ps hdec hprop hconf
    have hstep : Opt.step slv s
        = (if ps.assignment.trail.length ≤ 1 then .done (false, ps.assignment)
           else
            let a2 := ps.assignment.backtrackTo (ps.assignment.trail.length / 2)
            let vi2 := if (s.conflicts + 1) % 50 = 0 then ps.varInc / varDecay
              else ps.varInc
            if 100 < s.conflicts + 1 then
              .next ⟨a2.backtrackTo 0, ps.activity, vi2, 0, s.decisions + 1⟩
            else
              .next ⟨a2, ps.activity, vi2, s.conflicts + 1, s.decisions + 1⟩) := by
      unfold Opt.step
      rw [if_neg (by omega), hprop]
      simp only [hconf, if_true]
    constructor
    · intro htr
      rw [hstep, if_pos htr]
    · intro htr2
      rw [hstep, if_neg (by omega)]
      by_cases hres : 100 < s.conflicts + 1
      · rw [if_pos hres]
        refine ⟨_, rfl, ?_⟩
        rw [if_pos hres]
        show ((ps.assignment.backtrackTo
            (ps.assignment.trail.length / 2)).backtrackTo 0).trail = []
        rw [Opt.backtrackTo_trail]
        simp
      · rw [if_neg hres]
        refine ⟨_, rfl, ?_⟩
        rw [if_neg hres]
        exact Opt.backtrackTo_trail ps.assignment (ps.assignment.trail.length / 2)
  · intro slv s ps hdec hprop hconf
    have hstep : Opt2.step slv s
        = (if ps.assignment.trail.length ≤ 1 then .done (false, ps.assignment)
           else
            let a2 := ps.assignment.backtrackTo
              ((max 0 ((ps.assignment.trail.length : Int) - 5)).toNat)
            let vi2 := if (s.conflicts + 1) % 100 = 0 then ps.varInc / varDecay
              else ps.varInc
            if 200 * (1 + (s.conflicts + 1) / 1000) < s.conflicts + 1 then
              .next ⟨a2.backtrackTo 0, ps.activity, vi2, 0, s.decisions + 1⟩
            else
              .next ⟨a2, ps.activity, vi2, s.conflicts + 1, s.decisions + 1⟩) := by
      unfold Opt2.step
      rw [if_neg (by omega), hprop]
      simp only [hconf, if_true]
    constructor
    · intro htr
      rw [hstep, if_pos htr]
    · intro htr2
      rw [hstep, if_neg (by omega)]
      by_cases hres : 200 * (1 + (s.conflicts + 1) / 1000) < s.conflicts + 1
      · rw [if_pos hres]
        refine ⟨_, rfl, ?_⟩
        rw [if_pos hres]
        show ((ps.assignment.backtrackTo
            ((max 0 ((ps.assignment.trail.length : Int) - 5)).toNat)).backtrackTo 0).trail
          = []
        rw [Opt2.backtrackTo_trail2]
        simp
      · rw [if_neg hres]
        refine ⟨_, rfl, ?_⟩
        rw [if_neg hres]
        exact Opt2.backtrackTo_trail2 ps.assignment _

/-- Witness for C4: the amended theorem applied at the concrete state
`C4wstate`, where the conflict occurs with the trail at length 1, so the
watched-literal variant reports UNSAT and halts. -/
theorem C4_witness :
    C4wstate.decisions < Opt.maxDecisions1
    ∧ Opt.step C4wslv C4wstate = .done (false, ⟨[-1, 1], [1]⟩) := by
  have hprop : Opt.propagate C4wslv C4wstate.assignment C4wstate.activity
      C4wstate.varInc = some ⟨true, ⟨[-1, 1], [1]⟩, [0, 0], 1, []⟩ := by decide
  refine ⟨by decide, ?_⟩
  exact (C4_amended.1 C4wslv C4wstate ⟨true, ⟨[-1, 1], [1]⟩, [0, 0], 1, []⟩
    (by decide) hprop (by decide)).1 (by decide)


lemma Opt2.contains_init (N v : Int) :
    (Opt2.Assignment.init N).contains v = false := by
  unfold Opt2.Assignment.init Opt2.Assignment.contains
  by_cases h1 : 0 < v
  · by_cases h2 : v < ((List.replicate (N + 1).toNat (-1 : Int)).length : Int)
    · have hget : (List.replicate (N + 1).toNat (-1 : Int)).getD v.toNat 0 = -1 := by
        rw [List.getD_eq_getElem?_getD, List.getElem?_replicate]
        rw [List.length_replicate] at h2
        rw [if_pos (by omega)]
        rfl
      rw [hget]
      simp
    · rw [decide_eq_false h2]
      simp
  · rw [decide_eq_false h1]
    simp


lemma Opt2.AInv_init (N : Int) : Opt2.AInv (Opt2.Assignment.init N) := by
  constructor
  · show List.Nodup []
    exact List.nodup_nil
  · intro v
    rw [Opt2.contains_init]
    simp [Opt2.Assignment.init]


lemma Opt2.contains_true_elim (a : Opt2.Assignment) (v : Int)
    (h : a.contains v = true) :
    0 < v ∧ v < (a.values.length : Int) ∧ a.values.getD v.toNat 0 ≠ -1 := by
  unfold Opt2.Assignment.contains at h
  simp only [Bool.and_eq_true, decide_eq_true_eq, bne_iff_ne, ne_eq] at h
  exact ⟨h.1.1, h.1.2, h.2⟩


lemma Opt2.assign_noop (a : Opt2.Assignment) (v : Int) (b : Bool)
    (h : a.contains v = true) : a.assign v b = a := by
  obtain ⟨h1, h2, h3⟩ := Opt2.contains_true_elim a v h
  unfold Opt2.Assignment.assign
  rw [if_neg (by omega), if_neg h3]


lemma Opt2.getD_set_ne (l : List Int) (i j : Nat) (x : Int) (h : i ≠ j) :
    (l.set i x).getD j 0 = l.getD j 0 := by
  rw [List.getD_eq_getElem?_getD, List.getD_eq_getElem?_getD,
    List.getElem?_set_ne (by omega)]


lemma Opt2.contains_set_ne (a : Opt2.Assignment) (t : List Int) (v w : Int) (x : Int)
    (hv : 0 < v) (hw : v ≠ w) :
    (Opt2.Assignment.mk (a.values.set v.toNat x) t).contains w = a.contains w := by
  unfold Opt2.Assignment.contains
  by_cases h1 : 0 < w
  · have hne : v.toNat ≠ w.toNat := by omega
    rw [List.length_set, Opt2.getD_set_ne a.values v.toNat w.toNat x hne]
  · simp [h1]


lemma Opt2.AInv_assign (a : Opt2.Assignment) (v : Int) (b : Bool)
    (h : Opt2.AInv a) : Opt2.AInv (a.assign v b) := by
  obtain ⟨hnd, hmem⟩ := h
  by_cases hrange : v ≤ 0 ∨ (a.values.length : Int) ≤ v
  · unfold Opt2.Assignment.assign
    rw [if_pos hrange]
    exact ⟨hnd, hmem⟩
  · push_neg at hrange
    obtain ⟨hv0, hvlen⟩ := hrange
    by_cases hset : a.values.getD v.toNat 0 = -1
    · have hstep : a.assign v b
          = ⟨a.values.set v.toNat (if b then 1 else 0), a.trail ++ [v]⟩ := by
        unfold Opt2.Assignment.assign
        rw [if_neg (by omega), if_pos hset]
      have hvnot : v ∉ a.trail := by
        intro hvin
        have hct := (hmem v).1 hvin
        exact absurd hset (by
          have := Opt2.contains_true_elim a v hct
          exact this.2.2)
      rw [hstep]
      have hget : (a.values.set v.toNat (if b then 1 else 0)).getD v.toNat 0
          = (if b then 1 else 0) := by
        rw [List.getD_eq_getElem?_getD,
          List.getElem?_set_eq_of_lt (if b then 1 else 0) (by omega)]
        rfl
      constructor
      · rw [List.nodup_append]
        refine ⟨hnd, List.nodup_singleton v, ?_⟩
        intro w hw hwv
        rw [List.mem_singleton] at hwv
        subst hwv
        exact hvnot hw
      · intro w
        rw [List.mem_append, List.mem_singleton]
        by_cases hwv : w = v
        · subst hwv
          constructor
          · intro _
            show (decide (0 < w)
              && decide (w < ((a.values.set w.toNat (if b then 1 else 0)).length : Int))
              && ((a.values.set w.toNat (if b then 1 else 0)).getD w.toNat 0 != -1))
                = true
            rw [List.length_set, hget]
            simp only [Bool.and_eq_true, decide_eq_true_eq, bne_iff_ne, ne_eq]
            refine ⟨⟨hv0, hvlen⟩, ?_⟩
            cases b <;> simp
          · intro _
            exact Or.inr rfl
        · rw [Opt2.contains_set_ne a (a.trail ++ [v]) v w (if b then 1 else 0) hv0
            (Ne.symm hwv)]
          constructor
          · intro hor
            rcases hor with hin | heq
            · exact (hmem w).1 hin
            · exact absurd heq hwv
          · intro hc
            exact Or.inl ((hmem w).2 hc)
    · have hstep : a.assign v b = a := by
        unfold Opt2.Assignment.assign
        rw [if_neg (by omega), if_neg hset]
      rw [hstep]
      exact ⟨hnd, hmem⟩


lemma Opt2.AInv_popBack (a : Opt2.Assignment) (h : Opt2.AInv a)
    (hne : a.trail ≠ []) : Opt2.AInv a.popBack := by
  obtain ⟨hnd, hmem⟩ := h
  have hlast : a.trail.getLastD 0 = a.trail.getLast hne := by
    rw [List.getLastD_eq_getLast?, List.getLast?_eq_getLast_of_ne_nil hne]
    rfl
  set l := a.trail.getLast hne with hl
  have hlin : l ∈ a.trail := List.getLast_mem hne
  have hlcontains := (hmem l).1 hlin
  obtain ⟨hl0, hllen, _⟩ := Opt2.contains_true_elim a l hlcontains
  have hsplit : a.trail.dropLast ++ [l] = a.trail :=
    List.dropLast_append_getLast hne
  have hlnotdrop : l ∉ a.trail.dropLast := by
    intro hin
    have := hnd
    rw [← hsplit] at this
    rw [List.nodup_append] at this
    exact this.2.2 hin (List.mem_singleton.mpr rfl)
  have hpop : a.popBack
      = ⟨a.values.set l.toNat (-1), a.trail.dropLast⟩ := by
    unfold Opt2.Assignment.popBack Opt2.Assignment.unassign
    rw [hlast]
    rw [if_neg (by omega)]
  rw [hpop]
  constructor
  · exact hnd.sublist (List.dropLast_sublist a.trail)
  · intro w
    by_cases hwl : w = l
    · subst hwl
      have hget : (a.values.set l.toNat (-1)).getD l.toNat 0 = -1 := by
        rw [List.getD_eq_getElem?_getD,
          List.getElem?_set_eq_of_lt (-1 : Int) (by omega)]
        rfl
      constructor
      · intro hin
        exact absurd hin hlnotdrop
      · intro hc
        have hel := Opt2.contains_true_elim
          ⟨a.values.set l.toNat (-1), a.trail.dropLast⟩ l hc
        exact absurd hget hel.2.2
    · rw [Opt2.contains_set_ne a a.trail.dropLast l w (-1) hl0 (Ne.symm hwl)]
      constructor
      · intro hin
        exact (hmem w).1 (List.mem_of_mem_dropLast hin)
      · intro hc
        have hin := (hmem w).2 hc
        rw [← hsplit, List.mem_append, List.mem_singleton] at hin
        rcases hin with hin | heq
        · exact hin
        · exact absurd heq hwl


lemma Opt2.AInv_backtrackLoop : ∀ (fuel : Nat) (a : Opt2.Assignment) (k : Nat),
    Opt2.AInv a → Opt2.AInv (Opt2.Assignment.backtrackLoop fuel a k) := by
  intro fuel
  induction fuel with
  | zero => intro a k h; exact h
  | succ fuel ih =>
    intro a k h
    have hstep : Opt2.Assignment.backtrackLoop (fuel + 1) a k
        = if k < a.trail.length then Opt2.Assignment.backtrackLoop fuel a.popBack k
          else a := rfl
    rw [hstep]
    by_cases hk : k < a.trail.length
    · rw [if_pos hk]
      refine ih a.popBack k (Opt2.AInv_popBack a h ?_)
      intro hnil
      rw [hnil] at hk
      simp at hk
    · rw [if_neg hk]
      exact h


lemma Opt2.AInv_applyOp (a : Opt2.Assignment) (op : AOp) (h : Opt2.AInv a) :
    Opt2.AInv (Opt2.applyOp a op) := by
  match op with
  | .assign v b => exact Opt2.AInv_assign a v b h
  | .backtrack k => exact Opt2.AInv_backtrackLoop a.trail.length a k h


lemma Opt2.AInv_foldl : ∀ (ops : List AOp) (a : Opt2.Assignment),
    Opt2.AInv a → Opt2.AInv (ops.foldl Opt2.applyOp a) := by
  intro ops
  induction ops with
  | nil => intro a h; exact h
  | cons op rest ih =>
    intro a h
    exact ih (Opt2.applyOp a op) (Opt2.AInv_applyOp a op h)


/-- Claim C5 (amended): on the re-scan variant's `Assignment`, after any
sequence of `assign` and `backtrackTo` operations every variable appears
at most once on the trail, and calling `assign(v, value)` when `v` is
already set is a no-op — it changes neither the value vector nor the
trail.  (The original claim fails in two ways: the watched variant's
`assign` appends to the trail unconditionally, and even in the re-scan
variant a raw `unassign` followed by a re-`assign` duplicates a trail
entry — see the counterexample; `unassign` is therefore restricted to its
intended use through `backtrackTo`.) -/
theorem C5_amended :
    (∀ (N : Int) (ops : List AOp),
      ((ops.foldl Opt2.applyOp (Opt2.Assignment.init N)).trail).Nodup)
    ∧ (∀ (a : Opt2.Assignment) (v : Int) (b : Bool),
        a.contains v = true → a.assign v b = a) := by
  constructor
  · intro N ops
    exact (Opt2.AInv_foldl ops (Opt2.Assignment.init N) (Opt2.AInv_init N)).1
  · exact Opt2.assign_noop


/-- Counterexample to C5 as stated: the watched variant's `assign`
re-appends an already-set variable (so the second `assign(1, true)` is
not a no-op and duplicates the trail), and in the re-scan variant a raw
`unassign` followed by `assign` also duplicates the trail entry. -/
theorem C5_counterexample :
    (((Opt.Assignment.init 3).assign 1 true).assign 1 true).trail = [1, 1]
    ∧ ((((Opt2.Assignment.init 3).assign 1 true).unassign 1).assign 1 true).trail
        = [1, 1] := by
  refine ⟨by decide, by decide⟩


/-- Witness for C5: the amended theorem applied to a concrete operation
sequence and a concrete already-set variable. -/
theorem C5_witness :
    (([AOp.assign 1 true, AOp.assign 2 false, AOp.backtrack 1].foldl Opt2.applyOp
        (Opt2.Assignment.init 2)).trail).Nodup
    ∧ ((Opt2.Assignment.init 2).assign 1 true).contains 1 = true
    ∧ ((Opt2.Assignment.init 2).assign 1 true).assign 1 false
        = (Opt2.Assignment.init 2).assign 1 true :=
  ⟨C5_amended.1 2 [AOp.assign 1 true, AOp.assign 2 false, AOp.backtrack 1],
   by decide,
   C5_amended.2 ((Opt2.Assignment.init 2).assign 1 true) 1 false (by decide)⟩



/-! ## Infrastructure for the C6 counterexample: a run of the watched
variant on an unsatisfiable 2-variable formula that exhausts the decision
cap and then reports UNSAT without a trail-1 conflict -/

lemma getD_set_nonneg (l : List ℚ) (k : Nat) (x : ℚ) (hx : 0 ≤ x)
    (hpos : ∀ j, 0 ≤ l.getD j 0) (j : Nat) : 0 ≤ (l.set k x).getD j 0 := by
  by_cases hkj : k = j
  · subst hkj
    by_cases hk : k < l.length
    · rw [List.getD_eq_getElem?_getD, List.getElem?_set_eq_of_lt x hk]
      simpa using hx
    · rw [List.set_eq_of_length_le (by omega)]
      exact hpos k
  · rw [List.getD_eq_getElem?_getD, List.getElem?_set_ne hkj,
      ← List.getD_eq_getElem?_getD]
    exact hpos j


lemma getD_map_rescale_nonneg (l : List ℚ) (hpos : ∀ j, 0 ≤ l.getD j 0) (j : Nat) :
    0 ≤ (l.map (fun a => a * activityRescale)).getD j 0 := by
  rw [List.getD_eq_getElem?_getD, List.getElem?_map]
  cases h : l[j]? with
  | none => simp
  | some y =>
    have hy : 0 ≤ y := by
      have := hpos j
      rw [List.getD_eq_getElem?_getD, h] at this
      simpa using this
    have hre : (0:ℚ) ≤ activityRescale := by norm_num [activityRescale]
    simpa using mul_nonneg hy hre


lemma bumpActivity_len (act : List ℚ) (vi : ℚ) (v : Int) :
    (bumpActivity act vi v).1.length = act.length := by
  unfold bumpActivity
  by_cases h : v ≤ 0 ∨ (act.length : Int) ≤ v
  · rw [if_pos h]
  · rw [if_neg h]
    simp only []
    by_cases h2 : (act.set v.toNat (act.getD v.toNat 0 + vi)).getD v.toNat 0
        > bigActivity
    · rw [if_pos h2]
      simp
    · rw [if_neg h2]
      simp


lemma bumpActivity_nonneg (act : List ℚ) (vi : ℚ) (v : Int)
    (hpos : ∀ i, 0 ≤ act.getD i 0) (hvi : 0 < vi) :
    ∀ i, 0 ≤ (bumpActivity act vi v).1.getD i 0 := by
  intro i
  unfold bumpActivity
  by_cases h : v ≤ 0 ∨ (act.length : Int) ≤ v
  · rw [if_pos h]
    exact hpos i
  · rw [if_neg h]
    simp only []
    have hset : ∀ j, 0 ≤ (act.set v.toNat (act.getD v.toNat 0 + vi)).getD j 0 :=
      getD_set_nonneg act v.toNat _ (by have := hpos v.toNat; linarith) hpos
    by_cases h2 : (act.set v.toNat (act.getD v.toNat 0 + vi)).getD v.toNat 0
        > bigActivity
    · rw [if_pos h2]
      exact getD_map_rescale_nonneg _ hset i
    · rw [if_neg h2]
      exact hset i


lemma bumpActivity_vi_pos (act : List ℚ) (vi : ℚ) (v : Int) (hvi : 0 < vi) :
    0 < (bumpActivity act vi v).2 := by
  unfold bumpActivity
  by_cases h : v ≤ 0 ∨ (act.length : Int) ≤ v
  · rw [if_pos h]
    exact hvi
  · rw [if_neg h]
    simp only []
    by_cases h2 : (act.set v.toNat (act.getD v.toNat 0 + vi)).getD v.toNat 0
        > bigActivity
    · rw [if_pos h2]
      have hre : (0:ℚ) < activityRescale := by norm_num [activityRescale]
      exact mul_pos hvi hre
    · rw [if_neg h2]
      exact hvi


lemma selectVariable_foldl (numVars : Int) (a : Opt.Assignment) (act : List ℚ) :
    ∀ (l : List Nat) (p : Int × ℚ),
      (∀ i0 ∈ l, (i0 : Int) + 1 ≤ numVars) →
      (p.1 = -1 ∨ (1 ≤ p.1 ∧ p.1 ≤ numVars)) →
      ((l.foldl
          (fun (p : Int × ℚ) (i0 : Nat) =>
            let i : Int := (i0 : Int) + 1
            if a.contains i = false ∧ act.getD i.toNat 0 > p.2
            then (i, act.getD i.toNat 0) else p) p).1 = -1
        ∨ (1 ≤ (l.foldl
            (fun (p : Int × ℚ) (i0 : Nat) =>
              let i : Int := (i0 : Int) + 1
              if a.contains i = false ∧ act.getD i.toNat 0 > p.2
              then (i, act.getD i.toNat 0) else p) p).1
          ∧ (l.foldl
              (fun (p : Int × ℚ) (i0 : Nat) =>
                let i : Int := (i0 : Int) + 1
                if a.contains i = false ∧ act.getD i.toNat 0 > p.2
                then (i, act.getD i.toNat 0) else p) p).1 ≤ numVars)) := by
  intro l
  induction l with
  | nil => intro p _ hp; exact hp
  | cons x xs ih =>
    intro p hl hp
    rw [List.foldl_cons]
    apply ih
    · intro i0 hi
      exact hl i0 (List.mem_cons_of_mem x hi)
    · simp only []
      by_cases hc : a.contains ((x : Int) + 1) = false
          ∧ act.getD ((x : Int) + 1).toNat 0 > p.2
      · rw [if_pos hc]
        refine Or.inr ⟨by omega, ?_⟩
        exact hl x (List.mem_cons_self x xs)
      · rw [if_neg hc]
        exact hp


/-- The scored decision scan never invents a variable outside
`[1, numVars]` — its result is `-1` or an actual variable index. -/
lemma selectVariable_mem (numVars : Int) (a : Opt.Assignment) (act : List ℚ) :
    Opt.selectVariable numVars a act = -1
    ∨ (1 ≤ Opt.selectVariable numVars a act
        ∧ Opt.selectVariable numVars a act ≤ numVars) := by
  unfold Opt.selectVariable
  apply selectVariable_foldl
  · intro i0 hi
    have := List.mem_range.mp hi
    omega
  · exact Or.inl rfl


lemma C6_prop_empty (act : List ℚ) (vi : ℚ) :
    Opt.propagate C6slv ⟨[-1, -1, -1], []⟩ act vi
      = some ⟨false, ⟨[-1, -1, -1], []⟩, act, vi, []⟩ := rfl


lemma C6_prop_1T (act : List ℚ) (vi : ℚ) :
    Opt.propagate C6slv ⟨[-1, 1, -1], [1]⟩ act vi
      = some ⟨true, ⟨[-1, 1, 0], [1, 2]⟩, (bumpActivity act vi 2).1,
          (bumpActivity act vi 2).2, [2]⟩ := rfl


lemma C6_prop_1F (act : List ℚ) (vi : ℚ) :
    Opt.propagate C6slv ⟨[-1, 0, -1], [1]⟩ act vi
      = some ⟨true, ⟨[-1, 0, 0], [1, 2]⟩, (bumpActivity act vi 2).1,
          (bumpActivity act vi 2).2, [2]⟩ := rfl


lemma C6_prop_2T (act : List ℚ) (vi : ℚ) :
    Opt.propagate C6slv ⟨[-1, -1, 1], [2]⟩ act vi
      = some ⟨true, ⟨[-1, 0, 1], [2, 1]⟩, (bumpActivity act vi 1).1,
          (bumpActivity act vi 1).2, [1]⟩ := rfl


lemma C6_prop_2F (act : List ℚ) (vi : ℚ) :
    Opt.propagate C6slv ⟨[-1, -1, 0], [2]⟩ act vi
      = some ⟨true, ⟨[-1, 0, 0], [2, 1]⟩, (bumpActivity act vi 1).1,
          (bumpActivity act vi 1).2, [1]⟩ := rfl


/-- One iteration of the watched variant on `C6cls` from an invariant
state below the decision cap always continues (`.next`), preserves the
invariant, and increments the decision counter: decisions either conflict
at trail length 2 and are undone, or a fresh decision is made. -/
lemma C6_step_next (s : Opt.SolverState) (hinv : C6inv s)
    (hdec : s.decisions < Opt.maxDecisions1) :
    ∃ s2 : Opt.SolverState, Opt.step C6slv s = .next s2 ∧ C6inv s2
      ∧ s2.decisions = s.decisions + 1 := by
  obtain ⟨a, act, vi, cf, d⟩ := s
  simp only [C6inv] at hinv
  obtain ⟨hcase, hlen, hpos, hvi⟩ := hinv
  rcases hcase with h0 | ⟨b, hb⟩ | ⟨b, hb⟩
  · subst h0
    have hp := C6_prop_empty act vi
    have hstep := Opt.step_noconflict C6slv ⟨⟨[-1, -1, -1], []⟩, act, vi, cf, d⟩
      ⟨false, ⟨[-1, -1, -1], []⟩, act, vi, []⟩ hdec hp rfl
    simp only [] at hstep
    have hne : ¬(List.length ([] : List Int) = C6slv.numVars.toNat
        ∧ Opt.allSatisfied C6slv.clauses ⟨[-1, -1, -1], []⟩ = true) := by
      intro hh
      exact absurd hh.1 (by decide)
    rw [if_neg hne] at hstep
    rcases selectVariable_mem C6slv.numVars ⟨[-1, -1, -1], []⟩ act
        with hv | ⟨hv1, hv2⟩
    · rw [hv, if_pos rfl] at hstep
      have hfu : Opt.firstUnassigned C6slv.numVars ⟨[-1, -1, -1], []⟩ = 1 := by
        decide
      rw [hfu, if_neg (by decide : ¬((1 : Int) = -1))] at hstep
      exact ⟨_, hstep,
        ⟨Or.inr (Or.inl ⟨if (d + 1) % 3 = 0 then false else true, rfl⟩),
          hlen, hpos, hvi⟩, rfl⟩
    · have hnv : C6slv.numVars = (2 : Int) := rfl
      rcases (by omega :
          Opt.selectVariable C6slv.numVars ⟨[-1, -1, -1], []⟩ act = 1
          ∨ Opt.selectVariable C6slv.numVars ⟨[-1, -1, -1], []⟩ act = 2)
        with h1 | h1
      · rw [h1, if_neg (by decide : ¬((1 : Int) = -1)),
          if_neg (by decide : ¬((1 : Int) = -1))] at hstep
        exact ⟨_, hstep,
          ⟨Or.inr (Or.inl ⟨if (d + 1) % 3 = 0 then false else true, rfl⟩),
            hlen, hpos, hvi⟩, rfl⟩
      · rw [h1, if_neg (by decide : ¬((2 : Int) = -1)),
          if_neg (by decide : ¬((2 : Int) = -1))] at hstep
        exact ⟨_, hstep,
          ⟨Or.inr (Or.inr ⟨if (d + 1) % 3 = 0 then false else true, rfl⟩),
            hlen, hpos, hvi⟩, rfl⟩
  · cases b
    · have ha : a = ⟨[-1, 0, -1], [1]⟩ := hb
      subst ha
      have hp := C6_prop_1F act vi
      have hstep := Opt.step_conflict C6slv ⟨⟨[-1, 0, -1], [1]⟩, act, vi, cf, d⟩
        ⟨true, ⟨[-1, 0, 0], [1, 2]⟩, (bumpActivity act vi 2).1,
          (bumpActivity act vi 2).2, [2]⟩ hdec hp rfl
      simp only [] at hstep
      rw [if_neg (by decide : ¬(List.length ([1, 2] : List Int) ≤ 1))] at hstep
      by_cases hres : 100 < cf + 1
      · rw [if_pos hres] at hstep
        refine ⟨_, hstep, ⟨Or.inl rfl, ?_, ?_, ?_⟩, rfl⟩
        · rw [bumpActivity_len]
          exact hlen
        · exact bumpActivity_nonneg act vi 2 hpos hvi
        · split
          · exact div_pos (bumpActivity_vi_pos act vi 2 hvi)
              (by norm_num [varDecay])
          · exact bumpActivity_vi_pos act vi 2 hvi
      · rw [if_neg hres] at hstep
        refine ⟨_, hstep, ⟨Or.inr (Or.inl ⟨false, rfl⟩), ?_, ?_, ?_⟩, rfl⟩
        · rw [bumpActivity_len]
          exact hlen
        · exact bumpActivity_nonneg act vi 2 hpos hvi
        · split
          · exact div_pos (bumpActivity_vi_pos act vi 2 hvi)
              (by norm_num [varDecay])
          · exact bumpActivity_vi_pos act vi 2 hvi
    · have ha : a = ⟨[-1, 1, -1], [1]⟩ := hb
      subst ha
      have hp := C6_prop_1T act vi
      have hstep := Opt.step_conflict C6slv ⟨⟨[-1, 1, -1], [1]⟩, act, vi, cf, d⟩
        ⟨true, ⟨[-1, 1, 0], [1, 2]⟩, (bumpActivity act vi 2).1,
          (bumpActivity act vi 2).2, [2]⟩ hdec hp rfl
      simp only [] at hstep
      rw [if_neg (by decide : ¬(List.length ([1, 2] : List Int) ≤ 1))] at hstep
      by_cases hres : 100 < cf + 1
      · rw [if_pos hres] at hstep
        refine ⟨_, hstep, ⟨Or.inl rfl, ?_, ?_, ?_⟩, rfl⟩
        · rw [bumpActivity_len]
          exact hlen
        · exact bumpActivity_nonneg act vi 2 hpos hvi
        · split
          · exact div_pos (bumpActivity_vi_pos act vi 2 hvi)
              (by norm_num [varDecay])
          · exact bumpActivity_vi_pos act vi 2 hvi
      · rw [if_neg hres] at hstep
        refine ⟨_, hstep, ⟨Or.inr (Or.inl ⟨true, rfl⟩), ?_, ?_, ?_⟩, rfl⟩
        · rw [bumpActivity_len]
          exact hlen
        · exact bumpActivity_nonneg act vi 2 hpos hvi
        · split
          · exact div_pos (bumpActivity_vi_pos act vi 2 hvi)
              (by norm_num [varDecay])
          · exact bumpActivity_vi_pos act vi 2 hvi
  · cases b
    · have ha : a = ⟨[-1, -1, 0], [2]⟩ := hb
      subst ha
      have hp := C6_prop_2F act vi
      have hstep := Opt.step_conflict C6slv ⟨⟨[-1, -1, 0], [2]⟩, act, vi, cf, d⟩
        ⟨true, ⟨[-1, 0, 0], [2, 1]⟩, (bumpActivity act vi 1).1,
          (bumpActivity act vi 1).2, [1]⟩ hdec hp rfl
      simp only [] at hstep
      rw [if_neg (by decide : ¬(List.length ([2, 1] : List Int) ≤ 1))] at hstep
      by_cases hres : 100 < cf + 1
      · rw [if_pos hres] at hstep
        refine ⟨_, hstep, ⟨Or.inl rfl, ?_, ?_, ?_⟩, rfl⟩
        · rw [bumpActivity_len]
          exact hlen
        · exact bumpActivity_nonneg act vi 1 hpos hvi
        · split
          · exact div_pos (bumpActivity_vi_pos act vi 1 hvi)
              (by norm_num [varDecay])
          · exact bumpActivity_vi_pos act vi 1 hvi
      · rw [if_neg hres] at hstep
        refine ⟨_, hstep, ⟨Or.inr (Or.inr ⟨false, rfl⟩), ?_, ?_, ?_⟩, rfl⟩
        · rw [bumpActivity_len]
          exact hlen
        · exact bumpActivity_nonneg act vi 1 hpos hvi
        · split
          · exact div_pos (bumpActivity_vi_pos act vi 1 hvi)
              (by norm_num [varDecay])
          · exact bumpActivity_vi_pos act vi 1 hvi
    · have ha : a = ⟨[-1, -1, 1], [2]⟩ := hb
      subst ha
      have hp := C6_prop_2T act vi
      have hstep := Opt.step_conflict C6slv ⟨⟨[-1, -1, 1], [2]⟩, act, vi, cf, d⟩
        ⟨true, ⟨[-1, 0, 1], [2, 1]⟩, (bumpActivity act vi 1).1,
          (bumpActivity act vi 1).2, [1]⟩ hdec hp rfl
      simp only [] at hstep
      rw [if_neg (by decide : ¬(List.length ([2, 1] : List Int) ≤ 1))] at hstep
      by_cases hres : 100 < cf + 1
      · rw [if_pos hres] at hstep
        refine ⟨_, hstep, ⟨Or.inl rfl, ?_, ?_, ?_⟩, rfl⟩
        · rw [bumpActivity_len]
          exact hlen
        · exact bumpActivity_nonneg act vi 1 hpos hvi
        · split
          · exact div_pos (bumpActivity_vi_pos act vi 1 hvi)
              (by norm_num [varDecay])
          · exact bumpActivity_vi_pos act vi 1 hvi
      · rw [if_neg hres] at hstep
        refine ⟨_, hstep, ⟨Or.inr (Or.inr ⟨true, rfl⟩), ?_, ?_, ?_⟩, rfl⟩
        · rw [bumpActivity_len]
          exact hlen
        · exact bumpActivity_nonneg act vi 1 hpos hvi
        · split
          · exact div_pos (bumpActivity_vi_pos act vi 1 hvi)
              (by norm_num [varDecay])
          · exact bumpActivity_vi_pos act vi 1 hvi


lemma getD_replicate_zero (n i : Nat) : (List.replicate n (0 : ℚ)).getD i 0 = 0 := by
  rw [List.getD_eq_getElem?_getD, List.getElem?_replicate]
  split <;> rfl


lemma C6_init_inv :
    C6inv (Opt.initState C6slv) ∧ (Opt.initState C6slv).decisions = 0 := by
  refine ⟨⟨Or.inl rfl, rfl, ?_, (by norm_num : (0 : ℚ) < 1)⟩, rfl⟩
  intro i
  simp [Opt.initState, getD_replicate_zero]


/-- After `k ≤ 1000000` iterations of the solver loop on `C6cls` the
state still satisfies the invariant and has made exactly `k` decisions:
the run can only leave the loop through the decision cap. -/
lemma C6_reach : ∀ k, k ≤ Opt.maxDecisions1 →
    C6inv ((Opt.stepState C6slv)^[k] (Opt.initState C6slv))
    ∧ ((Opt.stepState C6slv)^[k] (Opt.initState C6slv)).decisions = k := by
  intro k
  induction k with
  | zero => intro _; simpa using C6_init_inv
  | succ k ih =>
    intro hk1
    obtain ⟨hinv, hd⟩ := ih (by omega)
    have hlt : ((Opt.stepState C6slv)^[k] (Opt.initState C6slv)).decisions
        < Opt.maxDecisions1 := by
      rw [hd]; omega
    obtain ⟨s2, hstep, hinv2, hd2⟩ := C6_step_next _ hinv hlt
    rw [Function.iterate_succ_apply']
    have heq : Opt.stepState C6slv ((Opt.stepState C6slv)^[k] (Opt.initState C6slv))
        = s2 := by
      have hdef : ∀ t, Opt.stepState C6slv t
          = match Opt.step C6slv t with
            | .next u => u
            | _ => t := fun t => rfl
      rw [hdef, hstep]
    rw [heq]
    exact ⟨hinv2, by rw [hd2, hd]⟩


/-! ## Claim C6: when is UNSAT reported? -/

/-- Claim C6 (amended): a terminating run of either CDCL variant reports
UNSAT (`false`) only on one of the enumerated paths.  Besides the
conflict-with-trail-≤-1 path of the original claim, the watched variant
also returns `false` at the decision cap and on the `var == -1` fallback
with an incomplete trail, and the re-scan variant additionally returns
`false` when the final verification fails on an empty trail or on the
`var == -1` fallback. -/
theorem C6_amended :
    (∀ (slv : Opt.Solver) (s : Opt.SolverState) (r : Bool × Opt.Assignment),
      Opt.step slv s = .done r → r.1 = false →
      Opt.maxDecisions1 ≤ s.decisions
      ∨ (∃ ps : Opt.PropState,
          Opt.propagate slv s.assignment s.activity s.varInc = some ps
          ∧ ps.conflict = true ∧ ps.assignment.trail.length ≤ 1)
      ∨ (∃ ps : Opt.PropState,
          Opt.propagate slv s.assignment s.activity s.varInc = some ps
          ∧ ps.conflict = false
          ∧ Opt.selectVariable slv.numVars ps.assignment ps.activity = -1
          ∧ Opt.firstUnassigned slv.numVars ps.assignment = -1
          ∧ ps.assignment.trail.length ≠ slv.numVars.toNat))
    ∧ (∀ (slv : Opt2.Solver2) (s : Opt2.SolverState2) (r : Bool × Opt2.Assignment),
      Opt2.step slv s = .done r → r.1 = false →
      Opt2.maxDecisions2 ≤ s.decisions
      ∨ (∃ ps : Opt2.UPState,
          Opt2.upLoop slv.clauses slv.propFuel s.assignment s.activity s.varInc
            = some ps
          ∧ ps.conflict = true ∧ ps.assignment.trail.length ≤ 1)
      ∨ (∃ ps : Opt2.UPState,
          Opt2.upLoop slv.clauses slv.propFuel s.assignment s.activity s.varInc
            = some ps
          ∧ ps.conflict = false
          ∧ ps.assignment.verifySolution slv.clauses = false
          ∧ ((ps.assignment.trail.length = slv.numVars.toNat
                ∧ ps.assignment.trail.length = 0)
             ∨ (ps.assignment.trail.length ≠ slv.numVars.toNat
                ∧ Opt2.selectVariable slv.numVars ps.assignment ps.activity = -1
                ∧ Opt2.firstUnassigned slv.numVars ps.assignment = -1)))) := by
  constructor
  · intro slv s r hstep hr
    by_cases hdec : Opt.maxDecisions1 ≤ s.decisions
    · exact Or.inl hdec
    right
    cases hprop : Opt.propagate slv s.assignment s.activity s.varInc with
    | none =>
      rw [Opt.step_timeout slv s (by omega) hprop] at hstep
      simp at hstep
    | some ps =>
      by_cases hconf : ps.conflict = true
      · rw [Opt.step_conflict slv s ps (by omega) hprop hconf] at hstep
        by_cases htr : ps.assignment.trail.length ≤ 1
        · exact Or.inl ⟨ps, rfl, hconf, htr⟩
        · rw [if_neg htr] at hstep
          simp only [] at hstep
          by_cases hres : 100 < s.conflicts + 1
          · rw [if_pos hres] at hstep; simp at hstep
          · rw [if_neg hres] at hstep; simp at hstep
      · have hconf2 : ps.conflict = false := by
          revert hconf; cases ps.conflict <;> simp
        rw [Opt.step_noconflict slv s ps (by omega) hprop hconf2] at hstep
        by_cases htot : ps.assignment.trail.length = slv.numVars.toNat
            ∧ Opt.allSatisfied slv.clauses ps.assignment = true
        · rw [if_pos htot] at hstep
          cases hstep
          simp at hr
        · rw [if_neg htot] at hstep
          simp only [] at hstep
          by_cases hvar : (if Opt.selectVariable slv.numVars ps.assignment
                ps.activity = -1
              then Opt.firstUnassigned slv.numVars ps.assignment
              else Opt.selectVariable slv.numVars ps.assignment ps.activity) = -1
          · rw [if_pos hvar] at hstep
            cases hstep
            have hne : ps.assignment.trail.length ≠ slv.numVars.toNat :=
              of_decide_eq_false hr
            by_cases hv0 : Opt.selectVariable slv.numVars ps.assignment
                ps.activity = -1
            · rw [if_pos hv0] at hvar
              exact Or.inr ⟨ps, rfl, hconf2, hv0, hvar, hne⟩
            · rw [if_neg hv0] at hvar
              exact absurd hvar hv0
          · rw [if_neg hvar] at hstep
            simp at hstep
  · intro slv s r hstep hr
    by_cases hdec : Opt2.maxDecisions2 ≤ s.decisions
    · exact Or.inl hdec
    right
    cases hprop : Opt2.upLoop slv.clauses slv.propFuel s.assignment s.activity
        s.varInc with
    | none =>
      unfold Opt2.step at hstep
      rw [if_neg (by omega), hprop] at hstep
      simp at hstep
    | some ps =>
      by_cases hconf : ps.conflict = true
      · rw [Opt2.step_conflict2 slv s ps (by omega) hprop hconf] at hstep
        by_cases htr : ps.assignment.trail.length ≤ 1
        · exact Or.inl ⟨ps, rfl, hconf, htr⟩
        · rw [if_neg htr] at hstep
          simp only [] at hstep
          by_cases hres : 200 * (1 + (s.conflicts + 1) / 1000) < s.conflicts + 1
          · rw [if_pos hres] at hstep; simp at hstep
          · rw [if_neg hres] at hstep; simp at hstep
      · have hconf2 : ps.conflict = false := by
          revert hconf; cases ps.conflict <;> simp
        rw [Opt2.step_noconflict2 slv s ps (by omega) hprop hconf2] at hstep
        by_cases htot : ps.assignment.trail.length = slv.numVars.toNat
        · rw [if_pos htot] at hstep
          by_cases hver : ps.assignment.verifySolution slv.clauses = true
          · rw [if_pos hver] at hstep
            cases hstep
            simp at hr
          · have hver2 : ps.assignment.verifySolution slv.clauses = false := by
              revert hver; cases ps.assignment.verifySolution slv.clauses <;> simp
            rw [if_neg hver] at hstep
            by_cases hpos : 0 < ps.assignment.trail.length
            · rw [if_pos hpos] at hstep; simp at hstep
            · rw [if_neg hpos] at hstep
              cases hstep
              exact Or.inr ⟨ps, rfl, hconf2, hver2, Or.inl ⟨htot, by omega⟩⟩
        · rw [if_neg htot] at hstep
          simp only [] at hstep
          by_cases hvar : (if Opt2.selectVariable slv.numVars ps.assignment
                ps.activity = -1
              then Opt2.firstUnassigned slv.numVars ps.assignment
              else Opt2.selectVariable slv.numVars ps.assignment ps.activity) = -1
          · rw [if_pos hvar] at hstep
            by_cases hver : ps.assignment.verifySolution slv.clauses = true
            · rw [if_pos hver] at hstep
              cases hstep
              simp at hr
            · have hver2 : ps.assignment.verifySolution slv.clauses = false := by
                revert hver; cases ps.assignment.verifySolution slv.clauses <;> simp
              rw [if_neg hver] at hstep
              by_cases hv0 : Opt2.selectVariable slv.numVars ps.assignment
                  ps.activity = -1
              · rw [if_pos hv0] at hvar
                exact Or.inr ⟨ps, rfl, hconf2, hver2, Or.inr ⟨htot, hv0, hvar⟩⟩
              · rw [if_neg hv0] at hvar
                exact absurd hvar hv0
          · rw [if_neg hvar] at hstep
            simp at hstep


/-- Witness for C6: the amended theorem applied to a concrete state at
the decision cap, where the watched variant returns `{false, assignment}`
without any conflict. -/
theorem C6_witness :
    Opt.maxDecisions1 ≤ C6wstate.decisions
    ∨ (∃ ps : Opt.PropState,
        Opt.propagate C6wslv C6wstate.assignment C6wstate.activity C6wstate.varInc
          = some ps
        ∧ ps.conflict = true ∧ ps.assignment.trail.length ≤ 1)
    ∨ (∃ ps : Opt.PropState,
        Opt.propagate C6wslv C6wstate.assignment C6wstate.activity C6wstate.varInc
          = some ps
        ∧ ps.conflict = false
        ∧ Opt.selectVariable C6wslv.numVars ps.assignment ps.activity = -1
        ∧ Opt.firstUnassigned C6wslv.numVars ps.assignment = -1
        ∧ ps.assignment.trail.length ≠ C6wslv.numVars.toNat) :=
  C6_amended.1 C6wslv C6wstate (false, Opt.Assignment.init 0) (by decide) rfl



/-- Counterexample to C6 as stated: on the unsatisfiable formula
`C6cls = (x1 ∨ x2)(x1 ∨ ¬x2)(¬x1 ∨ x2)(¬x1 ∨ ¬x2)` the watched variant
runs its loop one million times, hits the decision cap, and reports
UNSAT (`false`) from the cap exit — at that point propagation does not
even produce a conflict, let alone one with trail length ≤ 1, so the
claimed "only" path is not the one taken. -/
theorem C6_counterexample :
    Opt.step C6slv ((Opt.stepState C6slv)^[Opt.maxDecisions1] (Opt.initState C6slv))
      = .done (false,
          ((Opt.stepState C6slv)^[Opt.maxDecisions1]
            (Opt.initState C6slv)).assignment)
    ∧ ¬(∃ ps : Opt.PropState,
        Opt.propagate C6slv
            ((Opt.stepState C6slv)^[Opt.maxDecisions1]
              (Opt.initState C6slv)).assignment
            ((Opt.stepState C6slv)^[Opt.maxDecisions1]
              (Opt.initState C6slv)).activity
            ((Opt.stepState C6slv)^[Opt.maxDecisions1]
              (Opt.initState C6slv)).varInc
          = some ps
        ∧ ps.conflict = true ∧ ps.assignment.trail.length ≤ 1) := by
  obtain ⟨hinv, hd⟩ := C6_reach Opt.maxDecisions1 (le_refl _)
  constructor
  · unfold Opt.step
    rw [if_pos (le_of_eq hd.symm)]
  · rintro ⟨ps, hps, hconf, htr⟩
    obtain ⟨hcase, hlen, hpos, hvi⟩ := hinv
    rcases hcase with h0 | ⟨b, hb⟩ | ⟨b, hb⟩
    · rw [h0, C6_prop_empty] at hps
      cases hps
      simp at hconf
    · cases b
      · have hb2 : ((Opt.stepState C6slv)^[Opt.maxDecisions1]
            (Opt.initState C6slv)).assignment = ⟨[-1, 0, -1], [1]⟩ := hb
        rw [hb2, C6_prop_1F] at hps
        cases hps
        exact absurd htr (by decide)
      · have hb2 : ((Opt.stepState C6slv)^[Opt.maxDecisions1]
            (Opt.initState C6slv)).assignment = ⟨[-1, 1, -1], [1]⟩ := hb
        rw [hb2, C6_prop_1T] at hps
        cases hps
        exact absurd htr (by decide)
    · cases b
      · have hb2 : ((Opt.stepState C6slv)^[Opt.maxDecisions1]
            (Opt.initState C6slv)).assignment = ⟨[-1, -1, 0], [2]⟩ := hb
        rw [hb2, C6_prop_2F] at hps
        cases hps
        exact absurd htr (by decide)
      · have hb2 : ((Opt.stepState C6slv)^[Opt.maxDecisions1]
            (Opt.initState C6slv)).assignment = ⟨[-1, -1, 1], [2]⟩ := hb
        rw [hb2, C6_prop_2T] at hps
        cases hps
        exact absurd htr (by decide)

end SatKit

